import Mathlib

/-!
# GreeLib `ProtocolUtils`: a shallow embedding and its checked properties

The C++ unit `GreeLib/src/protocolutils.cpp` builds and reads the JSON messages of the Gree
appliance protocol on top of Qt (`QJsonObject`, `QJsonArray`, `QJsonValue`, `QJsonDocument`,
`QByteArray`, `QString`).  This file embeds

* the Qt value model the unit relies on (JSON values, arrays, objects, the conversions
  `toString`, `toInt`, `toArray`, the compact writer `QJsonDocument::toJson` and the reader
  `QJsonDocument::fromJson`, `QString::toUtf8` and `QString::fromUtf8`), and
* the five functions of the unit itself, line by line,

and proves the properties of the functions.  `Crypto::decryptPack`, which belongs to another
unit, is a parameter of `readPackFromResponse`.

Conventions of the embedding.

* `QString` is a sequence of Unicode scalar values (Lean `String`).
* `QByteArray` is a list of bytes, each a natural number below 256.
* A JSON number is held by its exact value, a rational; rounding to binary64 is not part of
  the model.  Every C++ `int` is exactly representable.
* C++ `int` is 32 bit two's complement: `INT_MIN = -2^31`, `INT_MAX = 2^31 - 1`.
-/

namespace GreeLib

/-! ## Qt value model -/

/-- A `QString`, as a sequence of Unicode scalar values. -/
abbrev QString := String

/-- A `QByteArray`: a list of bytes (natural numbers below 256). -/
abbrev QByteArray := List Nat

/-- Smallest value of a C++ `int`. -/
def INT_MIN : Int := -2147483648

/-- Largest value of a C++ `int`. -/
def INT_MAX : Int := 2147483647

/-- The values a C++ `int` can hold. -/
def isInt (v : Int) : Prop := INT_MIN ≤ v ∧ v ≤ INT_MAX

instance (v : Int) : Decidable (isInt v) := by unfold isInt; infer_instance

/-- A `QJsonValue`: the seven kinds of `QJsonValue::Type`. -/
inductive QJsonValue where
  | null
  | bool (b : Bool)
  | double (d : Rat)
  | string (s : QString)
  | array (a : List QJsonValue)
  | object (o : List (QString × QJsonValue))
  | undefined

/-- A `QJsonArray`: its elements in order. -/
abbrev QJsonArray := List QJsonValue

/-- A `QJsonObject`: its members (key, value), kept in ascending key order with unique keys by
`QJsonObject.insert`. -/
abbrev QJsonObject := List (QString × QJsonValue)

mutual
/-- The comparison `QJsonValue::operator==`: equal kinds and equal contents. -/
def QJsonValue.equals : QJsonValue → QJsonValue → Bool
  | .null, .null => true
  | .bool a, .bool b => a == b
  | .double a, .double b => a == b
  | .string a, .string b => a == b
  | .array a, .array b => QJsonValue.equalsArray a b
  | .object a, .object b => QJsonValue.equalsObject a b
  | .undefined, .undefined => true
  | _, _ => false
/-- Element-wise comparison of two arrays (`QJsonArray::operator==`). -/
def QJsonValue.equalsArray : List QJsonValue → List QJsonValue → Bool
  | [], [] => true
  | x :: xs, y :: ys => QJsonValue.equals x y && QJsonValue.equalsArray xs ys
  | _, _ => false
/-- Member-wise comparison of two objects (`QJsonObject::operator==`). -/
def QJsonValue.equalsObject : List (QString × QJsonValue) → List (QString × QJsonValue) → Bool
  | [], [] => true
  | (k, x) :: xs, (l, y) :: ys => k == l && QJsonValue.equals x y && QJsonValue.equalsObject xs ys
  | _, _ => false
end

/-- The test `QJsonValue::isArray`. -/
def QJsonValue.isArray : QJsonValue → Bool
  | .array _ => true
  | _ => false

/-- The conversion `QJsonValue::toArray`: the array, or an empty array for another kind. -/
def QJsonValue.toArray : QJsonValue → QJsonArray
  | .array a => a
  | _ => []

/-- The conversion `QJsonValue::toString`: the text, or the empty string for another kind. -/
def QJsonValue.toString : QJsonValue → QString
  | .string s => s
  | _ => ""

/-- The conversion `QJsonValue::toInt`: the number when it is integral and fits a C++ `int`,
otherwise the default value 0. -/
def QJsonValue.toInt : QJsonValue → Int
  | .double d => if d.den = 1 ∧ INT_MIN ≤ d.num ∧ d.num ≤ INT_MAX then d.num else 0
  | _ => 0

/-- The constructor `QJsonValue(int)`: the number with that value. -/
def QJsonValue.ofInt (v : Int) : QJsonValue := .double (v : Rat)

/-- The element access `QJsonArray::operator[](int) const`, which is `QJsonArray::at`: the
element, or `Undefined` outside the array. -/
def QJsonArray.index (a : QJsonArray) (i : Nat) : QJsonValue := a.getD i .undefined

/-- The member access `QJsonObject::operator[](const QString &) const`, which is
`QJsonObject::value`: the value stored under the key, or `Undefined` when there is none. -/
def QJsonObject.value : QJsonObject → QString → QJsonValue
  | [], _ => .undefined
  | (k, v) :: rest, key => if k = key then v else QJsonObject.value rest key

/-- The order of `QJsonObject` keys: lexicographic by character code. -/
def QString.lessThan : List Char → List Char → Bool
  | [], [] => false
  | [], _ :: _ => true
  | _ :: _, [] => false
  | a :: as, b :: bs =>
    if a.toNat < b.toNat then true
    else if b.toNat < a.toNat then false
    else QString.lessThan as bs

/-- The removal `QJsonObject::remove`: the member with the key is dropped. -/
def QJsonObject.remove : QJsonObject → QString → QJsonObject
  | [], _ => []
  | (k, v) :: rest, key => if k = key then rest else (k, v) :: QJsonObject.remove rest key

/-- The ordered insertion behind `QJsonObject::insert`: the value of an existing key is
replaced, a new key is placed before the first greater key. -/
def QJsonObject.insertSorted : QJsonObject → QString → QJsonValue → QJsonObject
  | [], key, value => [(key, value)]
  | (k, v) :: rest, key, value =>
    if k = key then (key, value) :: rest
    else if QString.lessThan key.data k.data then (key, value) :: (k, v) :: rest
    else (k, v) :: QJsonObject.insertSorted rest key value

/-- The insertion `QJsonObject::insert`: inserting `Undefined` removes the key. -/
def QJsonObject.insert (o : QJsonObject) (key : QString) (value : QJsonValue) : QJsonObject :=
  match value with
  | .undefined => QJsonObject.remove o key
  | _ => QJsonObject.insertSorted o key value

/-- The constructor `QJsonObject(std::initializer_list<QPair<QString, QJsonValue>>)`: the
pairs are inserted one after the other. -/
def QJsonObject.fromInitializerList (args : List (QString × QJsonValue)) : QJsonObject :=
  args.foldl (fun o kv => QJsonObject.insert o kv.1 kv.2) []

/-- A `QVariant`, as far as this unit builds one: `QVariant{ int }`. -/
inductive QVariant where
  | int (v : Int)

/-- The conversion `QJsonValue::fromVariant`. -/
def QJsonValue.fromVariant : QVariant → QJsonValue
  | .int v => QJsonValue.ofInt v

/-- The conversion `QJsonArray::fromStringList`. -/
def QJsonArray.fromStringList (l : List QString) : QJsonArray := l.map QJsonValue.string

/-- The conversion `QJsonArray::fromVariantList`. -/
def QJsonArray.fromVariantList (l : List QVariant) : QJsonArray := l.map QJsonValue.fromVariant

/-- A non-null `QJsonDocument`: it holds an object or an array. -/
inductive QJsonDocument where
  | ofObject (o : QJsonObject)
  | ofArray (a : QJsonArray)

/-- The accessor `QJsonDocument::object`: the object, or an empty object when the document
holds an array. -/
def QJsonDocument.object : QJsonDocument → QJsonObject
  | .ofObject o => o
  | .ofArray _ => []

/-! ## UTF-8 -/

/-- The UTF-8 bytes of one code point. -/
def utf8EncodeChar (u : Nat) : List Nat :=
  if u < 0x80 then [u]
  else if u < 0x800 then [0xC0 + u / 64, 0x80 + u % 64]
  else if u < 0x10000 then [0xE0 + u / 4096, 0x80 + u / 64 % 64, 0x80 + u % 64]
  else [0xF0 + u / 262144, 0x80 + u / 4096 % 64, 0x80 + u / 64 % 64, 0x80 + u % 64]

/-- UTF-8 encoding of a text (`QString::toUtf8`, and the byte form of the JSON writer). -/
def utf8Encode (s : List Char) : QByteArray := s.flatMap (fun c => utf8EncodeChar c.toNat)

/-- A continuation byte `10xxxxxx`. -/
def isContinuation (b : Nat) : Bool := 0x80 ≤ b && b < 0xC0

/-- A code point that UTF-8 may carry: not a surrogate, at most U+10FFFF. -/
def isScalar (u : Nat) : Bool := u < 0xD800 || (0xDFFF < u && u < 0x110000)

/-- One step of strict UTF-8 decoding: the first character of the input and the input after
it.  Overlong forms, surrogates, code points above U+10FFFF, stray continuation bytes and
truncated sequences are errors. -/
def utf8DecodeChar : List Nat → Option (Char × List Nat)
  | [] => none
  | b0 :: rest =>
    if b0 < 0x80 then some (Char.ofNat b0, rest)
    else if b0 < 0xC0 then none
    else if b0 < 0xE0 then
      match rest with
      | b1 :: rest1 =>
        if isContinuation b1 && 0x80 ≤ (b0 - 0xC0) * 64 + (b1 - 0x80) then
          some (Char.ofNat ((b0 - 0xC0) * 64 + (b1 - 0x80)), rest1)
        else none
      | _ => none
    else if b0 < 0xF0 then
      match rest with
      | b1 :: b2 :: rest2 =>
        if isContinuation b1 && isContinuation b2
            && 0x800 ≤ (b0 - 0xE0) * 4096 + (b1 - 0x80) * 64 + (b2 - 0x80)
            && isScalar ((b0 - 0xE0) * 4096 + (b1 - 0x80) * 64 + (b2 - 0x80)) then
          some (Char.ofNat ((b0 - 0xE0) * 4096 + (b1 - 0x80) * 64 + (b2 - 0x80)), rest2)
        else none
      | _ => none
    else if b0 < 0xF8 then
      match rest with
      | b1 :: b2 :: b3 :: rest3 =>
        if isContinuation b1 && isContinuation b2 && isContinuation b3
            && 0x10000 ≤ (b0 - 0xF0) * 262144 + (b1 - 0x80) * 4096 + (b2 - 0x80) * 64 + (b3 - 0x80)
            && isScalar
              ((b0 - 0xF0) * 262144 + (b1 - 0x80) * 4096 + (b2 - 0x80) * 64 + (b3 - 0x80)) then
          some (Char.ofNat
            ((b0 - 0xF0) * 262144 + (b1 - 0x80) * 4096 + (b2 - 0x80) * 64 + (b3 - 0x80)), rest3)
        else none
      | _ => none
    else none

/-- Strict UTF-8 decoding of at most `fuel` characters. -/
def utf8DecodeAux : Nat → List Nat → Option (List Char)
  | _, [] => some []
  | 0, _ :: _ => none
  | fuel + 1, b :: rest =>
    match utf8DecodeChar (b :: rest) with
    | none => none
    | some (c, rest1) => (utf8DecodeAux fuel rest1).map (fun t => c :: t)

/-- Strict UTF-8 decoding, as done by the JSON reader; a text has at most as many characters
as bytes. -/
def utf8Decode (bytes : List Nat) : Option (List Char) := utf8DecodeAux bytes.length bytes

/-- The conversion `QString::toUtf8`. -/
def QString.toUtf8 (s : QString) : QByteArray := utf8Encode s.data

/-- The test `QString::isEmpty`. -/
def QString.isEmpty (s : QString) : Bool := s.data.isEmpty

/-- The length `qstrnlen` finds: the bytes before the first NUL byte. -/
def takeUntilNul : List Nat → List Nat
  | [] => []
  | b :: rest => if b = 0 then [] else b :: takeUntilNul rest

/-- The byte order mark that `QUtf8::convertToUnicode` skips at the start of its input. -/
def dropUtf8Bom : List Nat → List Nat
  | 0xEF :: 0xBB :: 0xBF :: rest => rest
  | bytes => bytes

/-- Whether the bytes start with the byte order mark `EF BB BF`. -/
def startsWithBom : List Nat → Bool
  | 0xEF :: 0xBB :: 0xBF :: _ => true
  | _ => false

/-- Lenient UTF-8 decoding as in `QUtf8::convertToUnicode`: a well-formed sequence gives its
character, a byte that starts no well-formed sequence gives one replacement character U+FFFD
and decoding goes on with the next byte; `fuel` bounds the number of characters. -/
def utf8DecodeLenientAux : Nat → List Nat → List Char
  | _, [] => []
  | 0, _ :: _ => []
  | fuel + 1, b :: rest =>
    match utf8DecodeChar (b :: rest) with
    | some (c, rest1) => c :: utf8DecodeLenientAux fuel rest1
    | none => Char.ofNat 0xFFFD :: utf8DecodeLenientAux fuel rest

/-- The conversion `QString::fromUtf8(const QByteArray &)` of Qt 5: the bytes up to the first
NUL byte are taken (`qstrnlen`), a byte order mark at their start is skipped, the rest is
decoded leniently.  The conversion never fails. -/
def QString.fromUtf8 (str : QByteArray) : QString :=
  String.mk (utf8DecodeLenientAux (dropUtf8Bom (takeUntilNul str)).length
    (dropUtf8Bom (takeUntilNul str)))

/-! ## The compact JSON writer (`QJsonDocument::toJson(QJsonDocument::Compact)`) -/

/-- The hexadecimal digit `"0123456789abcdef"[n]`. -/
def hexDigit (n : Nat) : Char := if n < 10 then Char.ofNat (48 + n) else Char.ofNat (87 + n)

/-- The writer's escaping of one character: quote and backslash get a backslash, the control
characters their short form or `\u00XX`, every other character is written as it is. -/
def escapedChar (c : Char) : List Char :=
  let u := c.toNat
  if u < 0x80 then
    if u < 0x20 ∨ u = 0x22 ∨ u = 0x5c then
      Char.ofNat 0x5c ::
        (if u = 0x22 then [Char.ofNat 0x22]
         else if u = 0x5c then [Char.ofNat 0x5c]
         else if u = 0x8 then ['b']
         else if u = 0xc then ['f']
         else if u = 0xa then ['n']
         else if u = 0xd then ['r']
         else if u = 0x9 then ['t']
         else ['u', '0', '0', hexDigit (u / 16), hexDigit (u % 16)])
    else [c]
  else [c]

/-- The writer's `escapedString`. -/
def escapedString (s : QString) : List Char := s.data.flatMap escapedChar

/-- The decimal digit of a number below ten. -/
def digitChar (n : Nat) : Char := Char.ofNat (48 + n)

/-- Decimal digits of a natural number, most significant first; `fuel` bounds the number of
digits. -/
def natTextAux : Nat → Nat → List Char
  | 0, _ => []
  | fuel + 1, n =>
    if n < 10 then [digitChar n] else natTextAux fuel (n / 10) ++ [digitChar (n % 10)]

/-- Decimal text of a natural number. -/
def natText (n : Nat) : List Char := natTextAux (n + 1) n

/-- Decimal text of an integer (`QByteArray::number`). -/
def intText (v : Int) : List Char :=
  if v < 0 then '-' :: natText v.natAbs else natText v.natAbs

/-- Digits after the decimal point of `r / den`, for `r < den`, at most `fuel` of them. -/
def fractionText : Nat → Nat → Nat → List Char
  | 0, _, _ => []
  | fuel + 1, r, den =>
    if r = 0 then [] else digitChar (r * 10 / den) :: fractionText fuel (r * 10 % den) den

/-- The text of a number: an integral number is written as an integer; for another number
the decimal expansion of its value is written, cut after 17 fractional digits (the shortest
round-trip form that Qt chooses is not modelled; no function of this unit writes such a
number). -/
def doubleText (d : Rat) : List Char :=
  if d.den = 1 then intText d.num
  else
    (if d.num < 0 then ['-'] else []) ++ natText (d.num.natAbs / d.den)
      ++ '.' :: fractionText 17 (d.num.natAbs % d.den) d.den

mutual
/-- The writer's `valueToJson` in compact form. -/
def writeValue : QJsonValue → List Char
  | .null => ['n', 'u', 'l', 'l']
  | .bool b => if b then ['t', 'r', 'u', 'e'] else ['f', 'a', 'l', 's', 'e']
  | .double d => doubleText d
  | .string s => Char.ofNat 0x22 :: escapedString s ++ [Char.ofNat 0x22]
  | .array a => Char.ofNat 0x5b :: writeArrayContent a ++ [Char.ofNat 0x5d]
  | .object o => Char.ofNat 0x7b :: writeObjectContent o ++ [Char.ofNat 0x7d]
  | .undefined => ['n', 'u', 'l', 'l']
/-- The writer's `arrayContentToJson` in compact form: the elements, separated by commas. -/
def writeArrayContent : List QJsonValue → List Char
  | [] => []
  | [v] => writeValue v
  | v :: w :: rest => writeValue v ++ ',' :: writeArrayContent (w :: rest)
/-- The writer's `objectContentToJson` in compact form: the members `"key":value`, separated
by commas. -/
def writeObjectContent : List (QString × QJsonValue) → List Char
  | [] => []
  | [(k, v)] => Char.ofNat 0x22 :: escapedString k ++ Char.ofNat 0x22 :: ':' :: writeValue v
  | (k, v) :: w :: rest =>
    Char.ofNat 0x22 :: escapedString k ++ Char.ofNat 0x22 :: ':' :: writeValue v
      ++ ',' :: writeObjectContent (w :: rest)
end

/-- The serialisation `QJsonDocument::toJson(QJsonDocument::Compact)`: the compact text of the
document, as UTF-8 bytes. -/
def QJsonDocument.toJson : QJsonDocument → QByteArray
  | .ofObject o => utf8Encode (writeValue (.object o))
  | .ofArray a => utf8Encode (writeValue (.array a))

/-! ## The JSON reader (`QJsonDocument::fromJson`) -/

/-- White space between tokens: space, tab, line feed, carriage return. -/
def isSpace (c : Char) : Bool :=
  c.toNat = 0x20 || c.toNat = 0x09 || c.toNat = 0x0a || c.toNat = 0x0d

/-- The reader's `eatSpace`: leading white space is dropped. -/
def eatSpace : List Char → List Char
  | [] => []
  | c :: cs => if isSpace c then eatSpace cs else c :: cs

/-- The value of a hexadecimal digit, in either case. -/
def hexValue (c : Char) : Option Nat :=
  let u := c.toNat
  if 48 ≤ u ∧ u ≤ 57 then some (u - 48)
  else if 97 ≤ u ∧ u ≤ 102 then some (u - 87)
  else if 65 ≤ u ∧ u ≤ 70 then some (u - 55)
  else none

/-- The code unit named by the four hexadecimal digits of a `\uXXXX` escape. -/
def hex4 (a b c d : Char) : Option Nat :=
  match hexValue a, hexValue b, hexValue c, hexValue d with
  | some x, some y, some z, some w => some (((x * 16 + y) * 16 + z) * 16 + w)
  | _, _, _, _ => none

/-- The character named by a `\uXXXX` escape; a surrogate code unit has no counterpart among
the scalar values of the model and is read as U+FFFD. -/
def escapeCodeUnit (u : Nat) : Char := if isScalar u then Char.ofNat u else Char.ofNat 0xFFFD

/-- The character named by a one-letter escape (`scanEscapeSequence`): the known letters
name control characters, any other character stands for itself. -/
def unescape (e : Char) : Char :=
  if e = 'b' then Char.ofNat 0x8
  else if e = 'f' then Char.ofNat 0xc
  else if e = 'n' then Char.ofNat 0xa
  else if e = 'r' then Char.ofNat 0xd
  else if e = 't' then Char.ofNat 0x9
  else e

/-- The reader's `parseString`, started after the opening quote: characters are collected up
to the closing quote; the result is the text and the input after the closing quote. -/
def parseString : List Char → List Char → Option (QString × List Char)
  | [], _ => none
  | c :: cs, acc =>
    if c.toNat = 0x22 then some (String.mk acc.reverse, cs)
    else if c.toNat = 0x5c then
      match cs with
      | [] => none
      | e :: cs1 =>
        if e = 'u' then
          match cs1 with
          | x :: y :: z :: w :: cs2 =>
            match hex4 x y z w with
            | some u => parseString cs2 (escapeCodeUnit u :: acc)
            | none => none
          | _ => none
        else parseString cs1 (unescape e :: acc)
    else parseString cs (c :: acc)

/-- A decimal digit. -/
def isDigit (c : Char) : Bool := 48 ≤ c.toNat && c.toNat ≤ 57

/-- The longest run of decimal digits at the start of the input, and the input after it. -/
def takeDigits : List Char → List Char × List Char
  | [] => ([], [])
  | c :: cs =>
    if isDigit c then ((takeDigits cs).1.cons c, (takeDigits cs).2) else ([], c :: cs)

/-- The number written by a run of decimal digits. -/
def digitsValue (ds : List Char) : Nat := ds.foldl (fun a c => a * 10 + (c.toNat - 48)) 0

/-- The integer part of a number: a single zero, or a run of digits. -/
def scanInt (cs : List Char) : List Char × List Char :=
  if cs.head? = some '0' then (['0'], cs.tail) else takeDigits cs

/-- The optional fraction of a number: its digits, the input after it, and whether a decimal
point without digits was found. -/
def scanFraction (cs : List Char) : List Char × List Char × Bool :=
  if cs.head? = some '.' then
    ((takeDigits cs.tail).1, (takeDigits cs.tail).2, (takeDigits cs.tail).1.isEmpty)
  else ([], cs, false)

/-- The optional exponent of a number: its value, the input after it, and whether an exponent
letter without digits was found. -/
def scanExponent (cs : List Char) : Int × List Char × Bool :=
  if cs.head? = some 'e' ∨ cs.head? = some 'E' then
    let r := cs.tail
    let r1 := if r.head? = some '-' ∨ r.head? = some '+' then r.tail else r
    let ds := takeDigits r1
    ((if r.head? = some '-' then -(digitsValue ds.1 : Int) else (digitsValue ds.1 : Int)),
      ds.2, ds.1.isEmpty)
  else (0, cs, false)

/-- The reader's `parseNumber`: an optional minus sign, the integer part, an optional
fraction, an optional exponent.  The number must be followed by more input.  The value is the
exact value of the decimal text. -/
def parseNumber (cs : List Char) : Option (QJsonValue × List Char) :=
  let ip := scanInt (if cs.head? = some '-' then cs.tail else cs)
  let fp := scanFraction ip.2
  let expo := scanExponent fp.2.1
  if ip.1.isEmpty || fp.2.2 || expo.2.2 || expo.2.1.isEmpty then none
  else
    let mant : Int := digitsValue (ip.1 ++ fp.1)
    let value : Rat := ((if cs.head? = some '-' then -mant else mant : Int) : Rat)
      * (10 : Rat) ^ (expo.1 - (fp.1.length : Int))
    some (.double value, expo.2.1)

/-- What may follow a number in the text: a character that is no digit, no point and no
exponent letter. -/
def numberEnd (r : Char) : Prop := isDigit r = false ∧ r ≠ '.' ∧ r ≠ 'e' ∧ r ≠ 'E'

/-- The reader's limit on the nesting of arrays and objects. -/
def nestingLimit : Nat := 1024

/-- The cases of the reader's `parseValue` that do not open an array or an object: the
literals `null`, `true` and `false`, a string, and by default a number; a stray `,`, `]` or
a closing brace is an error. -/
def parseScalar : List Char → Option (QJsonValue × List Char)
  | [] => none
  | c :: cs =>
    if c = 'n' then
      match cs with
      | x :: y :: z :: rest =>
        if x = 'u' ∧ y = 'l' ∧ z = 'l' then some (.null, rest) else none
      | _ => none
    else if c = 't' then
      match cs with
      | x :: y :: z :: rest =>
        if x = 'r' ∧ y = 'u' ∧ z = 'e' then some (.bool true, rest) else none
      | _ => none
    else if c = 'f' then
      match cs with
      | x :: y :: z :: w :: rest =>
        if x = 'a' ∧ y = 'l' ∧ z = 's' ∧ w = 'e' then some (.bool false, rest) else none
      | _ => none
    else if c.toNat = 0x22 then
      match parseString cs [] with
      | some (s, rest) => some (.string s, rest)
      | none => none
    else if c.toNat = 0x2c ∨ c.toNat = 0x5d ∨ c.toNat = 0x7d then none
    else parseNumber (c :: cs)

mutual
/-- The reader's `parseValue` together with the entry of `parseArray` and `parseObject`;
`fuel` bounds the chain of calls, `nesting` counts the enclosing arrays and objects. -/
def parseValue : Nat → Nat → List Char → Option (QJsonValue × List Char)
  | 0, _, _ => none
  | _ + 1, _, [] => none
  | fuel + 1, nesting, c :: cs =>
    if c.toNat = 0x5b then
      if nestingLimit < nesting + 1 then none
      else
        match eatSpace cs with
        | [] => none
        | d :: rest =>
          if d.toNat = 0x5d then some (.array [], rest)
          else
            match parseArrayValues fuel (nesting + 1) (d :: rest) [] with
            | some (a, rest1) => some (.array a, rest1)
            | none => none
    else if c.toNat = 0x7b then
      if nestingLimit < nesting + 1 then none
      else
        match eatSpace cs with
        | [] => none
        | d :: rest =>
          if d.toNat = 0x7d then some (.object [], rest)
          else if d.toNat = 0x22 then
            match parseMembers fuel (nesting + 1) rest [] with
            | some (o, rest1) => some (.object o, rest1)
            | none => none
          else none
    else parseScalar (c :: cs)
/-- The loop of `parseArray`: a value, then `]` to end the array or `,` and the next value. -/
def parseArrayValues : Nat → Nat → List Char → QJsonArray → Option (QJsonArray × List Char)
  | 0, _, _, _ => none
  | fuel + 1, nesting, cs, acc =>
    match parseValue fuel nesting cs with
    | none => none
    | some (v, rest) =>
      match eatSpace rest with
      | [] => none
      | d :: rest1 =>
        if d.toNat = 0x5d then some (acc ++ [v], rest1)
        else if d.toNat = 0x2c then
          match eatSpace rest1 with
          | [] => none
          | e :: rest2 => parseArrayValues fuel nesting (e :: rest2) (acc ++ [v])
        else none
/-- The loop of `parseObject`, started after the opening quote of a key: `parseMember` (the
key, `:`, the value), then `}` to end the object or `,` and the quote of the next key.  The
members are entered in key order, a repeated key keeps its last value. -/
def parseMembers : Nat → Nat → List Char → QJsonObject → Option (QJsonObject × List Char)
  | 0, _, _, _ => none
  | fuel + 1, nesting, cs, acc =>
    match parseString cs [] with
    | none => none
    | some (key, rest) =>
      match eatSpace rest with
      | [] => none
      | d :: rest1 =>
        if d.toNat = 0x3a then
          match parseValue fuel nesting (eatSpace rest1) with
          | none => none
          | some (v, rest2) =>
            match eatSpace rest2 with
            | [] => none
            | e :: rest3 =>
              if e.toNat = 0x7d then some (QJsonObject.insertSorted acc key v, rest3)
              else if e.toNat = 0x2c then
                match eatSpace rest3 with
                | [] => none
                | q :: rest4 =>
                  if q.toNat = 0x22 then
                    parseMembers fuel nesting rest4 (QJsonObject.insertSorted acc key v)
                  else none
              else none
        else none
end

/-- The reader's `parse` on the decoded text: white space, then an array or an object, then
white space up to the end of the input. -/
def parseDocument (cs : List Char) : Option QJsonDocument :=
  match parseValue (cs.length + 1) 0 (eatSpace cs) with
  | some (.array a, rest) => if (eatSpace rest).isEmpty then some (.ofArray a) else none
  | some (.object o, rest) => if (eatSpace rest).isEmpty then some (.ofObject o) else none
  | _ => none

/-- The byte order mark that the reader skips at the start of the input. -/
def dropByteOrderMark : QByteArray → QByteArray
  | 0xEF :: 0xBB :: 0xBF :: b :: rest => b :: rest
  | bytes => bytes

/-- The reader `QJsonDocument::fromJson`: the document, or `none` when the reader reports a
parse error (`parseError.error != QJsonParseError::NoError`). -/
def QJsonDocument.fromJson (json : QByteArray) : Option QJsonDocument :=
  match utf8Decode (dropByteOrderMark json) with
  | none => none
  | some cs => parseDocument cs

/-! ## Reading back what the writer wrote -/

/-- A value whose compact text is read back by `parseValue` in one call, whatever follows it
in an array or an object, and whose text starts with a character that is neither white space
nor a closing bracket. -/
def ReadsBack (v : QJsonValue) : Prop :=
  (∃ c t, writeValue v = c :: t ∧ isSpace c = false ∧ c.toNat ≠ 0x5d)
  ∧ ∀ (fuel nesting : Nat) (d : Char) (rest : List Char),
      (d.toNat = 0x2c ∨ d.toNat = 0x5d ∨ d.toNat = 0x7d) →
      parseValue (fuel + 1) nesting (writeValue v ++ d :: rest) = some (v, d :: rest)

/-- A value whose compact text is read back by `parseValue` with fuel `need`, below the
nesting limit, whatever follows it in an array or an object, and whose text starts with a
character that is not white space. -/
def ReadsBackWith (need : Nat) (v : QJsonValue) : Prop :=
  (∃ c t, writeValue v = c :: t ∧ isSpace c = false)
  ∧ ∀ (fuel nesting : Nat) (d : Char) (rest : List Char),
      need ≤ fuel → nesting < nestingLimit →
      (d.toNat = 0x2c ∨ d.toNat = 0x5d ∨ d.toNat = 0x7d) →
      parseValue fuel nesting (writeValue v ++ d :: rest) = some (v, d :: rest)

/-! ## The parameter map -/

/-- Modelled from the spec: the type `ProtocolUtils::DeviceParameterMap`, whose declaration
(header `protocolutils.h`) is missing.  The spec describes it as an ordered mapping from
parameter name to integer value with unique keys and a fixed iteration order; it is held here
as the list of its entries in iteration order.  The unit uses `isEmpty()`, `keys()`,
`values()` and `map[key] = value` of it. -/
abbrev DeviceParameterMap := List (QString × Int)

/-- The emptiness test `isEmpty()` of the map. -/
def DeviceParameterMap.isEmpty (m : DeviceParameterMap) : Bool := List.isEmpty m

/-- The key list `keys()` of the map, in iteration order. -/
def DeviceParameterMap.keys (m : DeviceParameterMap) : List QString := m.map Prod.fst

/-- The value list `values()` of the map, in the iteration order of the keys. -/
def DeviceParameterMap.values (m : DeviceParameterMap) : List Int := m.map Prod.snd

/-- The lookup `value(key)` of the map, when the key is present. -/
def DeviceParameterMap.find : DeviceParameterMap → QString → Option Int
  | [], _ => none
  | (k, v) :: rest, key => if k = key then some v else DeviceParameterMap.find rest key

/-- The assignment `map[key] = value`: the entry of an existing key is overwritten in place, a
new key gets a new entry, placed last in the iteration order. -/
def DeviceParameterMap.assign : DeviceParameterMap → QString → Int → DeviceParameterMap
  | [], key, value => [(key, value)]
  | (k, v) :: rest, key, value =>
    if k = key then (k, value) :: rest
    else (k, v) :: DeviceParameterMap.assign rest key value

/-- Well-formed maps: the keys are unique and every value is a C++ `int`. -/
def DeviceParameterMap.WF (m : DeviceParameterMap) : Prop :=
  m.keys.Nodup ∧ ∀ e ∈ m, isInt e.2

instance (m : DeviceParameterMap) : Decidable (DeviceParameterMap.WF m) := by
  unfold DeviceParameterMap.WF; infer_instance

/-! ## The device descriptor -/

/-- Modelled from the spec: the type `DeviceDescriptor`, whose declaration (header
`devicedescriptor.h`) is missing.  The spec describes it as identifying a target device by a
stable identifier `id`, a MAC-address-like string; the unit reads only `device.id`. -/
structure DeviceDescriptor where
  id : QString

/-! ## `ProtocolUtils::readStatusMapFromPack` -/

namespace ProtocolUtils

/-- The function `ProtocolUtils::readStatusMapFromPack`: six checks, each answering with the
empty map, then the loop `map[keyArray[i].toString()] = valueArray[i].toInt()`. -/
def readStatusMapFromPack (pack : QJsonObject) : DeviceParameterMap :=
  if !(QJsonValue.equals (pack.value "t") (.string "dat")) then []
  else
    let keys := pack.value "cols"
    if !keys.isArray then []
    else
      let keyArray := keys.toArray
      if keyArray.isEmpty then []
      else
        let values := pack.value "dat"
        if !values.isArray then []
        else
          let valueArray := values.toArray
          if valueArray.isEmpty then []
          else if keyArray.length ≠ valueArray.length then []
          else
            (List.range keyArray.length).foldl
              (fun map i =>
                DeviceParameterMap.assign map (keyArray.index i).toString (valueArray.index i).toInt)
              []

/-- The loop of `readStatusMapFromPack` after `n` rounds, started on the empty map. -/
def statusLoop (keyArray valueArray : QJsonArray) (n : Nat) : DeviceParameterMap :=
  (List.range n).foldl
    (fun map i =>
      DeviceParameterMap.assign map (keyArray.index i).toString (valueArray.index i).toInt)
    []

/-! ## `ProtocolUtils::createDeviceCommandPack` -/

/-- The function `ProtocolUtils::createDeviceCommandPack`: no bytes for the empty map,
otherwise the compact text of the object with the members `opt`, `p` and `t`. -/
def createDeviceCommandPack (parameters : DeviceParameterMap) : QByteArray :=
  if parameters.isEmpty then []
  else
    let intValues := parameters.values
    let variantValues := intValues.map (fun value => QVariant.int value)
    let json := QJsonObject.fromInitializerList
      [("opt", .array (QJsonArray.fromStringList parameters.keys)),
       ("p", .array (QJsonArray.fromVariantList variantValues)),
       ("t", .string "cmd")]
    (QJsonDocument.ofObject json).toJson

/-- A JSON value that is a number with an integral value. -/
def isIntegerNumber : QJsonValue → Prop
  | .double d => d.den = 1
  | _ => False

/-- The object that `createDeviceCommandPack` serialises for a non-empty map: the member
`opt` with the keys, the member `p` with the values, the member `t` with `cmd`. -/
def commandPackObject (m : DeviceParameterMap) : QJsonObject :=
  [("opt", .array (m.keys.map QJsonValue.string)),
   ("p", .array (m.values.map QJsonValue.ofInt)),
   ("t", .string "cmd")]

/-- The command pack read as a status pack: `opt` taken as `cols`, `p` taken as `dat`, and the
type `dat`. -/
def asStatusPack (pack : QJsonObject) : QJsonObject :=
  [("cols", pack.value "opt"), ("dat", pack.value "p"), ("t", .string "dat")]

/-! ## The request builders of `ProtocolUtils` -/

/-- The function `ProtocolUtils::createBindingRequest`. -/
def createBindingRequest (device : DeviceDescriptor) : QByteArray :=
  let json := QJsonObject.fromInitializerList
    [("mac", .string device.id),
     ("t", .string "bind"),
     ("uid", QJsonValue.ofInt 0)]
  (QJsonDocument.ofObject json).toJson

/-- The function `ProtocolUtils::createDeviceRequest`. -/
def createDeviceRequest (encryptedPack : QByteArray) (i : Int) : QByteArray :=
  let json := QJsonObject.fromInitializerList
    [("cid", .string "app"),
     ("i", QJsonValue.ofInt i),
     ("t", .string "pack"),
     ("uid", QJsonValue.ofInt 0),
     ("pack", .string (QString.fromUtf8 encryptedPack))]
  (QJsonDocument.ofObject json).toJson

/-- The function `ProtocolUtils::createDeviceStatusRequestPack`. -/
def createDeviceStatusRequestPack (id : QString) : QByteArray :=
  let json := QJsonObject.fromInitializerList
    [("cols", .array
        [.string "Pow",
         .string "Mod",
         .string "SetTem",
         .string "WdSpd",
         .string "Air",
         .string "Blo",
         .string "Health",
         .string "SwhSlp",
         .string "Lig",
         .string "SwingLfRig",
         .string "SwUpDn",
         .string "Quiet",
         .string "Tur",
         .string "StHt",
         .string "TemUn",
         .string "HeatCoolType",
         .string "TemRec",
         .string "SvSt",
         .string "NoiseSet"]),
     ("mac", .string id),
     ("t", .string "status")]
  (QJsonDocument.ofObject json).toJson

/-- The status column catalog: the names that `createDeviceStatusRequestPack` emits as `cols`,
in their order. -/
def statusColumns : List QString :=
  ["Pow", "Mod", "SetTem", "WdSpd", "Air", "Blo", "Health", "SwhSlp", "Lig", "SwingLfRig",
   "SwUpDn", "Quiet", "Tur", "StHt", "TemUn", "HeatCoolType", "TemRec", "SvSt", "NoiseSet"]

/-- The object that `createBindingRequest` serialises. -/
def bindingRequestObject (id : QString) : QJsonObject :=
  [("mac", .string id), ("t", .string "bind"), ("uid", QJsonValue.ofInt 0)]

/-- The object that `createDeviceRequest` serialises, its members in key order. -/
def deviceRequestObject (pack : QString) (i : Int) : QJsonObject :=
  [("cid", .string "app"), ("i", QJsonValue.ofInt i), ("pack", .string pack),
   ("t", .string "pack"), ("uid", QJsonValue.ofInt 0)]

/-- The object that `createDeviceStatusRequestPack` serialises. -/
def statusRequestObject (id : QString) : QJsonObject :=
  [("cols", .array (statusColumns.map QJsonValue.string)), ("mac", .string id),
   ("t", .string "status")]

/-! ## `ProtocolUtils::readPackFromResponse` -/

/-- The three places where `readPackFromResponse` gives up, each with its warning. -/
inductive ReadPackFailure where
  /-- Gives up with "response is not a valid JSON object". -/
  | malformedEnvelope
  /-- Gives up with "response doesn't have a 'pack' field which is mandatory". -/
  | missingPackField
  /-- Gives up with "decrypted pack is not a valid JSON object". -/
  | malformedPack
  deriving DecidableEq

/-- What a call of `readPackFromResponse` leaves behind: the returned `bool`, the caller's
`pack` object after the call, the place where the call gave up (if it did), and the calls of
`Crypto::decryptPack` that were made, each with its two arguments. -/
structure ReadPackResult where
  result : Bool
  pack : QJsonObject
  failure : Option ReadPackFailure
  decryptCalls : List (QByteArray × QString)

/-- The function `ProtocolUtils::readPackFromResponse`.  `Crypto::decryptPack` belongs to
another unit and is passed in as `decryptPack`; `pack` is the caller's object that the
function may assign. -/
def readPackFromResponse (decryptPack : QByteArray → QString → QByteArray)
    (response : QByteArray) (decryptionKey : QString) (pack : QJsonObject) : ReadPackResult :=
  match QJsonDocument.fromJson response with
  | none => { result := false, pack := pack, failure := some .malformedEnvelope,
              decryptCalls := [] }
  | some responseJsonDocument =>
    let responseJson := responseJsonDocument.object
    let encryptedPack := (responseJson.value "pack").toString
    if QString.isEmpty encryptedPack then
      { result := false, pack := pack, failure := some .missingPackField, decryptCalls := [] }
    else
      let decryptedPack := decryptPack (QString.toUtf8 encryptedPack) decryptionKey
      match QJsonDocument.fromJson decryptedPack with
      | none =>
        { result := false, pack := pack, failure := some .malformedPack,
          decryptCalls := [(QString.toUtf8 encryptedPack, decryptionKey)] }
      | some packJsonDocument =>
        { result := true, pack := packJsonDocument.object, failure := none,
          decryptCalls := [(QString.toUtf8 encryptedPack, decryptionKey)] }

end ProtocolUtils

/-! ## Properties of the value model -/

theorem QJsonValue.equals_string_iff (v : QJsonValue) (s : QString) :
    QJsonValue.equals v (.string s) = true ↔ v = .string s := by
  cases v <;> simp [QJsonValue.equals]

theorem QJsonValue.toInt_ofInt (v : Int) (h : isInt v) : (QJsonValue.ofInt v).toInt = v := by
  obtain ⟨h1, h2⟩ := h
  simp [QJsonValue.ofInt, QJsonValue.toInt, h1, h2]

theorem QJsonValue.toInt_isInt (v : QJsonValue) : isInt v.toInt := by
  cases v <;> simp [QJsonValue.toInt, isInt, INT_MIN, INT_MAX]
  rename_i d
  split
  · rename_i h; exact ⟨h.2.1, h.2.2⟩
  · decide

/-! ## Properties of the parameter map -/

theorem DeviceParameterMap.find_assign (m : DeviceParameterMap) (k : QString) (v : Int)
    (key : QString) :
    DeviceParameterMap.find (DeviceParameterMap.assign m k v) key
      = if k = key then some v else DeviceParameterMap.find m key := by
  induction m with
  | nil => simp [DeviceParameterMap.assign, DeviceParameterMap.find]
  | cons e rest ih =>
    obtain ⟨a, b⟩ := e
    by_cases hak : a = k
    · subst hak
      by_cases h : a = key <;> simp [DeviceParameterMap.assign, DeviceParameterMap.find, h]
    · by_cases h : a = key
      · subst h
        have hka : ¬ k = a := fun e => hak e.symm
        simp [DeviceParameterMap.assign, DeviceParameterMap.find, hak, hka]
      · simp [DeviceParameterMap.assign, DeviceParameterMap.find, hak, h, ih]

theorem DeviceParameterMap.mem_keys_assign (m : DeviceParameterMap) (k : QString) (v : Int)
    (key : QString) :
    key ∈ DeviceParameterMap.keys (DeviceParameterMap.assign m k v)
      ↔ key = k ∨ key ∈ DeviceParameterMap.keys m := by
  induction m with
  | nil => simp [DeviceParameterMap.assign, DeviceParameterMap.keys]
  | cons e rest ih =>
    obtain ⟨a, b⟩ := e
    simp only [DeviceParameterMap.keys] at ih
    by_cases hak : a = k
    · subst hak
      simp [DeviceParameterMap.assign, DeviceParameterMap.keys]
    · simp only [DeviceParameterMap.assign, DeviceParameterMap.keys, hak, if_false, List.map_cons,
        List.mem_cons, ih]
      tauto

theorem DeviceParameterMap.nodup_keys_assign (m : DeviceParameterMap) (k : QString) (v : Int)
    (h : (DeviceParameterMap.keys m).Nodup) :
    (DeviceParameterMap.keys (DeviceParameterMap.assign m k v)).Nodup := by
  induction m with
  | nil => simp [DeviceParameterMap.assign, DeviceParameterMap.keys]
  | cons e rest ih =>
    obtain ⟨a, b⟩ := e
    have hm := DeviceParameterMap.mem_keys_assign rest k v
    simp only [DeviceParameterMap.keys, List.map_cons, List.nodup_cons] at h ih hm ⊢
    by_cases hak : a = k
    · subst hak
      simp only [DeviceParameterMap.assign, if_true, List.map_cons, List.nodup_cons]
      exact h
    · simp only [DeviceParameterMap.assign, hak, if_false, List.map_cons, List.nodup_cons]
      refine ⟨?_, ih h.2⟩
      rw [hm]
      rintro (h1 | h1)
      · exact hak h1
      · exact h.1 h1

theorem DeviceParameterMap.assign_fresh (m : DeviceParameterMap) (k : QString) (v : Int)
    (h : k ∉ DeviceParameterMap.keys m) :
    DeviceParameterMap.assign m k v = m ++ [(k, v)] := by
  induction m with
  | nil => simp [DeviceParameterMap.assign]
  | cons e rest ih =>
    obtain ⟨a, b⟩ := e
    simp only [DeviceParameterMap.keys, List.map_cons, List.mem_cons, not_or] at h ih
    have hak : ¬ a = k := fun e => h.1 e.symm
    simp [DeviceParameterMap.assign, hak, ih h.2]

/-! ## Properties of the loop of `readStatusMapFromPack` -/

namespace ProtocolUtils

theorem statusLoop_zero (ks vs : QJsonArray) : statusLoop ks vs 0 = [] := by
  simp [statusLoop]

theorem statusLoop_succ (ks vs : QJsonArray) (n : Nat) :
    statusLoop ks vs (n + 1)
      = DeviceParameterMap.assign (statusLoop ks vs n) (ks.index n).toString
          (vs.index n).toInt := by
  simp [statusLoop, List.range_succ, List.foldl_append]

theorem readStatusMapFromPack_accepts (pack : QJsonObject) (cols dat : QJsonArray)
    (ht : pack.value "t" = .string "dat") (hc : pack.value "cols" = .array cols)
    (hd : pack.value "dat" = .array dat) (hne : cols ≠ [])
    (hlen : cols.length = dat.length) :
    readStatusMapFromPack pack = statusLoop cols dat cols.length := by
  have hdne : dat ≠ [] := by
    intro h
    rw [h] at hlen
    exact hne (List.length_eq_zero.mp hlen)
  have he : QJsonValue.equals (QJsonValue.string "dat") (QJsonValue.string "dat") = true :=
    (QJsonValue.equals_string_iff _ _).mpr rfl
  simp [readStatusMapFromPack, statusLoop, ht, hc, hd, he, QJsonValue.isArray,
    QJsonValue.toArray, hne, hdne, hlen]

theorem statusLoop_spec (ks vs : QJsonArray) (n : Nat) :
    (DeviceParameterMap.keys (statusLoop ks vs n)).Nodup
    ∧ (∀ name, name ∈ DeviceParameterMap.keys (statusLoop ks vs n)
        ↔ ∃ k, k < n ∧ (ks.index k).toString = name)
    ∧ (∀ j, j < n → (∀ i, j < i → i < n → (ks.index i).toString ≠ (ks.index j).toString)
        → DeviceParameterMap.find (statusLoop ks vs n) (ks.index j).toString
            = some (vs.index j).toInt) := by
  induction n with
  | zero => simp [statusLoop_zero, DeviceParameterMap.keys]
  | succ n ih =>
    obtain ⟨ih1, ih2, ih3⟩ := ih
    rw [statusLoop_succ]
    refine ⟨DeviceParameterMap.nodup_keys_assign _ _ _ ih1, ?_, ?_⟩
    · intro name
      rw [DeviceParameterMap.mem_keys_assign, ih2]
      constructor
      · rintro (h | ⟨k, hk, hk2⟩)
        · exact ⟨n, Nat.lt_succ_self n, h.symm⟩
        · exact ⟨k, Nat.lt_succ_of_lt hk, hk2⟩
      · rintro ⟨k, hk, hk2⟩
        rcases Nat.lt_succ_iff_lt_or_eq.mp hk with h | h
        · exact Or.inr ⟨k, h, hk2⟩
        · subst h; exact Or.inl hk2.symm
    · intro j hj hlast
      rw [DeviceParameterMap.find_assign]
      rcases Nat.lt_succ_iff_lt_or_eq.mp hj with h | h
      · have hne : ¬ (ks.index n).toString = (ks.index j).toString :=
          hlast n h (Nat.lt_succ_self n)
        rw [if_neg hne]
        exact ih3 j h (fun i hji hin => hlast i hji (Nat.lt_succ_of_lt hin))
      · subst h; simp

theorem statusLoop_congr (ks vs ws : QJsonArray) (n : Nat)
    (h : ∀ i, i < n → (vs.index i).toInt = (ws.index i).toInt) :
    statusLoop ks vs n = statusLoop ks ws n := by
  induction n with
  | zero => simp [statusLoop_zero]
  | succ n ih =>
    rw [statusLoop_succ, statusLoop_succ, ih (fun i hi => h i (Nat.lt_succ_of_lt hi)),
      h n (Nat.lt_succ_self n)]

theorem toInt_eq_zero_of_not_integer (v : QJsonValue) (h : ¬ isIntegerNumber v) :
    v.toInt = 0 := by
  cases v <;> simp [QJsonValue.toInt]
  rename_i d
  intro hd
  exact absurd hd h

theorem value_absent (pack : QJsonObject) (key : QString)
    (h : key ∉ pack.map Prod.fst) : pack.value key = .undefined := by
  induction pack with
  | nil => rfl
  | cons e rest ih =>
    obtain ⟨a, b⟩ := e
    simp only [List.map_cons, List.mem_cons, not_or] at h
    have hak : ¬ a = key := fun e => h.1 e.symm
    simp [QJsonObject.value, hak, ih h.2]

end ProtocolUtils

/-! ## UTF-8: decoding undoes encoding -/

theorem char_toNat_valid (c : Char) :
    c.toNat < 0xD800 ∨ (0xDFFF < c.toNat ∧ c.toNat < 0x110000) := by
  have h := c.valid
  simpa [UInt32.isValidChar, Nat.isValidChar, Char.toNat] using h

theorem utf8DecodeChar_encodeChar (c : Char) (rest : List Nat) :
    utf8DecodeChar (utf8EncodeChar c.toNat ++ rest) = some (c, rest) := by
  have hv := char_toNat_valid c
  have hc := Char.ofNat_toNat c
  generalize c.toNat = u at hv hc
  subst hc
  unfold utf8EncodeChar
  by_cases h1 : u < 0x80
  · simp only [h1, if_true, List.cons_append, List.nil_append]
    rw [utf8DecodeChar.eq_def]; dsimp only; rw [if_pos h1]
  · by_cases h2 : u < 0x800
    · simp only [h1, h2, if_false, if_true, List.cons_append, List.nil_append]
      have e : (0xC0 + u / 64 - 0xC0) * 64 + (0x80 + u % 64 - 0x80) = u := by omega
      rw [utf8DecodeChar.eq_def]; dsimp only; rw [if_neg (by omega), if_neg (by omega), if_pos (by omega)]
      simp only [e, isContinuation]
      rw [if_pos (by simp; omega)]
    · by_cases h3 : u < 0x10000
      · simp only [h1, h2, h3, if_false, if_true, List.cons_append, List.nil_append]
        have e : (0xE0 + u / 4096 - 0xE0) * 4096 + (0x80 + u / 64 % 64 - 0x80) * 64
            + (0x80 + u % 64 - 0x80) = u := by omega
        rw [utf8DecodeChar.eq_def]; dsimp only; rw [if_neg (by omega), if_neg (by omega), if_neg (by omega),
          if_pos (by omega)]
        simp only [e, isContinuation, isScalar]
        rw [if_pos (by simp; omega)]
      · simp only [h1, h2, h3, if_false, List.cons_append, List.nil_append]
        have e : (0xF0 + u / 262144 - 0xF0) * 262144 + (0x80 + u / 4096 % 64 - 0x80) * 4096
            + (0x80 + u / 64 % 64 - 0x80) * 64 + (0x80 + u % 64 - 0x80) = u := by omega
        rw [utf8DecodeChar.eq_def]; dsimp only; rw [if_neg (by omega), if_neg (by omega), if_neg (by omega),
          if_neg (by omega), if_pos (by omega)]
        simp only [e, isContinuation, isScalar]
        rw [if_pos (by simp; omega)]

theorem utf8EncodeChar_cons (u : Nat) : ∃ b bs, utf8EncodeChar u = b :: bs := by
  unfold utf8EncodeChar
  split_ifs <;> exact ⟨_, _, rfl⟩

theorem utf8DecodeAux_encode (cs : List Char) :
    ∀ fuel, cs.length ≤ fuel → utf8DecodeAux fuel (utf8Encode cs) = some cs := by
  induction cs with
  | nil => intro fuel _; simp [utf8Encode, utf8DecodeAux]
  | cons c cs ih =>
    intro fuel hf
    obtain ⟨f, rfl⟩ : ∃ f, fuel = f + 1 := ⟨fuel - 1, by simp at hf; omega⟩
    have h := utf8DecodeChar_encodeChar c (utf8Encode cs)
    obtain ⟨b, bs, hb⟩ := utf8EncodeChar_cons c.toNat
    have hcons : utf8Encode (c :: cs) = utf8EncodeChar c.toNat ++ utf8Encode cs := by
      simp [utf8Encode]
    rw [hcons]
    rw [hb] at h ⊢
    simp only [List.cons_append] at h ⊢
    rw [utf8DecodeAux, h]
    simp only [ih f (by simp at hf; omega)]
    rfl

theorem length_le_utf8Encode (cs : List Char) : cs.length ≤ (utf8Encode cs).length := by
  induction cs with
  | nil => simp
  | cons c cs ih =>
    obtain ⟨b, bs, hb⟩ := utf8EncodeChar_cons c.toNat
    have hcons : utf8Encode (c :: cs) = utf8EncodeChar c.toNat ++ utf8Encode cs := by
      simp [utf8Encode]
    rw [hcons, hb]
    simp
    omega

theorem utf8Decode_encode (cs : List Char) : utf8Decode (utf8Encode cs) = some cs :=
  utf8DecodeAux_encode cs _ (length_le_utf8Encode cs)

/-! ## Strings: `parseString` undoes `escapedString` -/

theorem parseString_quote (c : Char) (cs acc : List Char) (h : c.toNat = 0x22) :
    parseString (c :: cs) acc = some (String.mk acc.reverse, cs) := by
  rw [parseString.eq_def]; dsimp only; rw [if_pos h]

theorem parseString_plain (c : Char) (cs acc : List Char) (h1 : c.toNat ≠ 0x22)
    (h2 : c.toNat ≠ 0x5c) : parseString (c :: cs) acc = parseString cs (c :: acc) := by
  rw [parseString.eq_def]; dsimp only; rw [if_neg h1, if_neg h2]

theorem parseString_escape (c e : Char) (cs acc : List Char) (h : c.toNat = 0x5c)
    (he : e ≠ 'u') : parseString (c :: e :: cs) acc = parseString cs (unescape e :: acc) := by
  rw [parseString.eq_def]; dsimp only
  rw [if_neg (by rw [h]; decide), if_pos h, if_neg he]

theorem parseString_unicode (c x y z w : Char) (cs acc : List Char) (u : Nat)
    (h : c.toNat = 0x5c) (hx : hex4 x y z w = some u) :
    parseString (c :: 'u' :: x :: y :: z :: w :: cs) acc
      = parseString cs (escapeCodeUnit u :: acc) := by
  rw [parseString.eq_def]; dsimp only
  rw [if_neg (by rw [h]; decide), if_pos h, if_pos rfl, hx]

theorem hex4_hexDigit : ∀ u, u < 32 →
    hex4 '0' '0' (hexDigit (u / 16)) (hexDigit (u % 16)) = some u := by
  decide

theorem escapeCodeUnit_control : ∀ u, u < 32 → escapeCodeUnit u = Char.ofNat u := by
  decide

theorem char_eq_of_toNat (c : Char) (k : Nat) (h : c.toNat = k) : c = Char.ofNat k := by
  rw [← h, Char.ofNat_toNat]

theorem parseString_escapedChar (c : Char) (rest acc : List Char) :
    parseString (escapedChar c ++ rest) acc = parseString rest (c :: acc) := by
  unfold escapedChar
  dsimp only
  by_cases h80 : c.toNat < 0x80
  · rw [if_pos h80]
    by_cases hs : c.toNat < 0x20 ∨ c.toNat = 0x22 ∨ c.toNat = 0x5c
    · rw [if_pos hs]
      by_cases h22 : c.toNat = 0x22
      · rw [if_pos h22]
        have hc := char_eq_of_toNat c _ h22
        subst hc
        exact parseString_escape _ _ _ _ (by decide) (by decide)
      · rw [if_neg h22]
        by_cases h5c : c.toNat = 0x5c
        · rw [if_pos h5c]
          have hc := char_eq_of_toNat c _ h5c
          subst hc
          exact parseString_escape _ _ _ _ (by decide) (by decide)
        · rw [if_neg h5c]
          by_cases h8 : c.toNat = 0x8
          · rw [if_pos h8]
            have hc := char_eq_of_toNat c _ h8
            subst hc
            exact parseString_escape _ _ _ _ (by decide) (by decide)
          · rw [if_neg h8]
            by_cases hC : c.toNat = 0xc
            · rw [if_pos hC]
              have hc := char_eq_of_toNat c _ hC
              subst hc
              exact parseString_escape _ _ _ _ (by decide) (by decide)
            · rw [if_neg hC]
              by_cases hA : c.toNat = 0xa
              · rw [if_pos hA]
                have hc := char_eq_of_toNat c _ hA
                subst hc
                exact parseString_escape _ _ _ _ (by decide) (by decide)
              · rw [if_neg hA]
                by_cases hD : c.toNat = 0xd
                · rw [if_pos hD]
                  have hc := char_eq_of_toNat c _ hD
                  subst hc
                  exact parseString_escape _ _ _ _ (by decide) (by decide)
                · rw [if_neg hD]
                  by_cases h9 : c.toNat = 0x9
                  · rw [if_pos h9]
                    have hc := char_eq_of_toNat c _ h9
                    subst hc
                    exact parseString_escape _ _ _ _ (by decide) (by decide)
                  · rw [if_neg h9]
                    have hlt : c.toNat < 32 := by omega
                    have hc := char_eq_of_toNat c _ rfl
                    have e := parseString_unicode (Char.ofNat 0x5c) '0' '0'
                      (hexDigit (c.toNat / 16)) (hexDigit (c.toNat % 16)) rest acc c.toNat
                      (by decide) (hex4_hexDigit _ hlt)
                    rw [escapeCodeUnit_control _ hlt, ← hc] at e
                    exact e
    · rw [if_neg hs]
      exact parseString_plain _ _ _ (fun h => hs (Or.inr (Or.inl h)))
        (fun h => hs (Or.inr (Or.inr h)))
  · rw [if_neg h80]
    exact parseString_plain _ _ _ (by omega) (by omega)

theorem parseString_escaped (cs : List Char) :
    ∀ (rest acc : List Char),
      parseString (cs.flatMap escapedChar ++ Char.ofNat 0x22 :: rest) acc
        = some (String.mk (acc.reverse ++ cs), rest) := by
  induction cs with
  | nil =>
    intro rest acc
    simp only [List.flatMap_nil, List.nil_append, List.append_nil]
    exact parseString_quote _ _ _ (by decide)
  | cons c cs ih =>
    intro rest acc
    simp only [List.flatMap_cons, List.append_assoc]
    rw [parseString_escapedChar, ih]
    simp

theorem parseString_escapedString (s : QString) (rest : List Char) :
    parseString (escapedString s ++ Char.ofNat 0x22 :: rest) [] = some (s, rest) := by
  unfold escapedString
  rw [parseString_escaped]
  simp

/-! ## Numbers: `parseNumber` undoes `intText` -/

theorem digitChar_toNat : ∀ k, k < 10 → (digitChar k).toNat = 48 + k := by decide

theorem natTextAux_fuel (fuel1 : Nat) :
    ∀ (fuel2 n : Nat), n < fuel1 → n < fuel2 → natTextAux fuel1 n = natTextAux fuel2 n := by
  induction fuel1 with
  | zero => intro fuel2 n h; omega
  | succ f ih =>
    intro fuel2 n h1 h2
    obtain ⟨g, rfl⟩ : ∃ g, fuel2 = g + 1 := ⟨fuel2 - 1, by omega⟩
    by_cases h : n < 10
    · simp [natTextAux, h]
    · simp only [natTextAux, h, if_false]
      rw [ih g (n / 10) (by omega) (by omega)]

theorem natText_small (n : Nat) (h : n < 10) : natText n = [digitChar n] := by
  simp [natText, natTextAux, h]

theorem natText_large (n : Nat) (h : ¬ n < 10) :
    natText n = natText (n / 10) ++ [digitChar (n % 10)] := by
  unfold natText
  rw [natTextAux, if_neg h, natTextAux_fuel n (n / 10 + 1) (n / 10) (by omega) (by omega)]

theorem digitsValue_snoc (ds : List Char) (d : Char) :
    digitsValue (ds ++ [d]) = digitsValue ds * 10 + (d.toNat - 48) := by
  simp [digitsValue, List.foldl_append]

/-- The digits of `natText n`: all are decimal digits, they spell `n`, and the first one is
not `0` unless `n = 0`. -/
theorem natText_spec (n : Nat) :
    (∀ c ∈ natText n, isDigit c = true) ∧ digitsValue (natText n) = n
      ∧ ∃ d t, natText n = d :: t ∧ (0 < n → d ≠ '0') := by
  induction n using Nat.strong_induction_on with
  | _ n ih =>
    by_cases h : n < 10
    · rw [natText_small n h]
      have h1 := digitChar_toNat n h
      refine ⟨?_, ?_, digitChar n, [], rfl, ?_⟩
      · intro c hc
        simp only [List.mem_singleton] at hc
        subst hc
        simp [isDigit, h1]; omega
      · simp [digitsValue, h1]
      · intro hpos he
        rw [he] at h1
        have : ('0' : Char).toNat = 48 := by decide
        omega
    · obtain ⟨i1, i2, d, t, i3, i4⟩ := ih (n / 10) (by omega)
      have h1 := digitChar_toNat (n % 10) (by omega)
      rw [natText_large n h]
      refine ⟨?_, ?_, d, t ++ [digitChar (n % 10)], ?_, ?_⟩
      · intro c hc
        rcases List.mem_append.mp hc with hc | hc
        · exact i1 c hc
        · simp only [List.mem_singleton] at hc
          subst hc
          simp [isDigit, h1]; omega
      · rw [digitsValue_snoc, i2, h1]; omega
      · rw [i3]; rfl
      · intro _; exact i4 (by omega)

theorem takeDigits_append (ds : List Char) (r : Char) (rs : List Char)
    (hds : ∀ c ∈ ds, isDigit c = true) (hr : isDigit r = false) :
    takeDigits (ds ++ r :: rs) = (ds, r :: rs) := by
  induction ds with
  | nil => simp [takeDigits, hr]
  | cons d ds ih =>
    have hd : isDigit d = true := hds d (List.mem_cons_self _ _)
    have := ih (fun c hc => hds c (List.mem_cons_of_mem _ hc))
    simp [takeDigits, hd, this]


theorem isDigit_ne (d c : Char) (hd : isDigit d = true) (hc : isDigit c = false) : d ≠ c := by
  intro h; subst h; rw [hd] at hc; exact absurd hc (by decide)

theorem scanInt_natText (n : Nat) (r : Char) (rs : List Char) (hr : isDigit r = false) :
    scanInt (natText n ++ r :: rs) = (natText n, r :: rs) := by
  obtain ⟨h1, _, d, t, h3, h4⟩ := natText_spec n
  unfold scanInt
  by_cases hn : n = 0
  · subst hn
    have e : natText 0 = ['0'] := by decide
    simp [e]
  · have hd0 : d ≠ '0' := h4 (Nat.pos_of_ne_zero hn)
    rw [if_neg (by simp [h3, hd0])]
    exact takeDigits_append _ _ _ h1 hr

theorem scanFraction_none (r : Char) (rs : List Char) (hr : r ≠ '.') :
    scanFraction (r :: rs) = ([], r :: rs, false) := by
  simp [scanFraction, hr]

theorem scanExponent_none (r : Char) (rs : List Char) (h1 : r ≠ 'e') (h2 : r ≠ 'E') :
    scanExponent (r :: rs) = (0, r :: rs, false) := by
  simp [scanExponent, h1, h2]

theorem parseNumber_natText (n : Nat) (r : Char) (rs : List Char) (hr : numberEnd r) :
    parseNumber (natText n ++ r :: rs) = some (.double ((n : Int) : Rat), r :: rs) := by
  obtain ⟨hr1, hr2, hr3, hr4⟩ := hr
  obtain ⟨h1, h2, d, t, h3, _⟩ := natText_spec n
  have hd : isDigit d = true := h1 d (by rw [h3]; exact List.mem_cons_self _ _)
  have hdm : d ≠ '-' := isDigit_ne d _ hd (by decide)
  have hh : ¬ ((natText n ++ r :: rs).head? = some '-') := by simp [h3, hdm]
  have hne : natText n ≠ [] := by rw [h3]; simp
  unfold parseNumber
  simp only [if_neg hh, scanInt_natText n r rs hr1, scanFraction_none r rs hr2,
    scanExponent_none r rs hr3 hr4]
  simp [hne, h2]

theorem parseNumber_neg_natText (n : Nat) (r : Char) (rs : List Char) (hr : numberEnd r) :
    parseNumber ('-' :: (natText n ++ r :: rs)) = some (.double ((-(n : Int) : Int) : Rat), r :: rs) := by
  obtain ⟨hr1, hr2, hr3, hr4⟩ := hr
  obtain ⟨h1, h2, d, t, h3, _⟩ := natText_spec n
  have hne : natText n ≠ [] := by rw [h3]; simp
  unfold parseNumber
  simp only [List.head?_cons, if_true, List.tail_cons, scanInt_natText n r rs hr1,
    scanFraction_none r rs hr2, scanExponent_none r rs hr3 hr4]
  simp [hne, h2]

theorem parseNumber_intText (v : Int) (r : Char) (rs : List Char) (hr : numberEnd r) :
    parseNumber (intText v ++ r :: rs) = some (QJsonValue.ofInt v, r :: rs) := by
  unfold intText QJsonValue.ofInt
  by_cases hv : v < 0
  · rw [if_pos hv]
    have e : (-(v.natAbs : Int) : Int) = v := by omega
    have := parseNumber_neg_natText v.natAbs r rs hr
    rw [e] at this
    simpa using this
  · rw [if_neg hv]
    have e : ((v.natAbs : Nat) : Int) = v := by omega
    have := parseNumber_natText v.natAbs r rs hr
    rw [e] at this
    exact this

/-! ## Values, arrays and objects: the reader undoes the writer -/

theorem parseArrayValues_succ (fuel nesting : Nat) (cs : List Char) (acc : QJsonArray) :
    parseArrayValues (fuel + 1) nesting cs acc =
      match parseValue fuel nesting cs with
      | none => none
      | some (v, rest) =>
        match eatSpace rest with
        | [] => none
        | d :: rest1 =>
          if d.toNat = 0x5d then some (acc ++ [v], rest1)
          else if d.toNat = 0x2c then
            match eatSpace rest1 with
            | [] => none
            | e :: rest2 => parseArrayValues fuel nesting (e :: rest2) (acc ++ [v])
          else none := by
  rw [parseArrayValues]

theorem parseMembers_succ (fuel nesting : Nat) (cs : List Char) (acc : QJsonObject) :
    parseMembers (fuel + 1) nesting cs acc =
    match parseString cs [] with
    | none => none
    | some (key, rest) =>
      match eatSpace rest with
      | [] => none
      | d :: rest1 =>
        if d.toNat = 0x3a then
          match parseValue fuel nesting (eatSpace rest1) with
          | none => none
          | some (v, rest2) =>
            match eatSpace rest2 with
            | [] => none
            | e :: rest3 =>
              if e.toNat = 0x7d then some (QJsonObject.insertSorted acc key v, rest3)
              else if e.toNat = 0x2c then
                match eatSpace rest3 with
                | [] => none
                | q :: rest4 =>
                  if q.toNat = 0x22 then
                    parseMembers fuel nesting rest4 (QJsonObject.insertSorted acc key v)
                  else none
              else none
        else none := by
  rw [parseMembers]

theorem parseValue_succ (fuel nesting : Nat) (c : Char) (cs : List Char) :
    parseValue (fuel + 1) nesting (c :: cs) =
    if c.toNat = 0x5b then
      if nestingLimit < nesting + 1 then none
      else
        match eatSpace cs with
        | [] => none
        | d :: rest =>
          if d.toNat = 0x5d then some (.array [], rest)
          else
            match parseArrayValues fuel (nesting + 1) (d :: rest) [] with
            | some (a, rest1) => some (.array a, rest1)
            | none => none
    else if c.toNat = 0x7b then
      if nestingLimit < nesting + 1 then none
      else
        match eatSpace cs with
        | [] => none
        | d :: rest =>
          if d.toNat = 0x7d then some (.object [], rest)
          else if d.toNat = 0x22 then
            match parseMembers fuel (nesting + 1) rest [] with
            | some (o, rest1) => some (.object o, rest1)
            | none => none
          else none
    else parseScalar (c :: cs) := by
  rw [parseValue]

theorem parseScalar_quote (cs : List Char) :
    parseScalar (Char.ofNat 0x22 :: cs) =
      match parseString cs [] with
      | some (s, rest) => some (.string s, rest)
      | none => none := by
  rw [parseScalar.eq_def]
  dsimp only
  rw [if_neg (by decide), if_neg (by decide), if_neg (by decide), if_pos (by decide)]

theorem parseScalar_number (c : Char) (cs : List Char) (hc : isDigit c = true ∨ c = '-') :
    parseScalar (c :: cs) = parseNumber (c :: cs) := by
  have hnat : (48 ≤ c.toNat ∧ c.toNat ≤ 57) ∨ c.toNat = 45 := by
    rcases hc with h | h
    · left; simpa [isDigit] using h
    · right; subst h; decide
  have hn : c ≠ 'n' := by
    intro h; subst h; revert hnat; decide
  have ht : c ≠ 't' := by
    intro h; subst h; revert hnat; decide
  have hf : c ≠ 'f' := by
    intro h; subst h; revert hnat; decide
  rw [parseScalar.eq_def]
  dsimp only
  rw [if_neg hn, if_neg ht, if_neg hf, if_neg (by omega), if_neg (by omega)]

theorem readsBack_string (s : QString) : ReadsBack (.string s) := by
  constructor
  · exact ⟨Char.ofNat 0x22, escapedString s ++ [Char.ofNat 0x22], by rw [writeValue]; rfl,
      by decide, by decide⟩
  · intro fuel nesting d rest _
    rw [writeValue]
    simp only [List.cons_append, List.append_assoc, List.singleton_append, List.nil_append]
    rw [parseValue_succ, if_neg (by decide), if_neg (by decide), parseScalar_quote,
      parseString_escapedString]

theorem intText_cons (v : Int) :
    ∃ c t, intText v = c :: t ∧ (isDigit c = true ∨ c = '-') := by
  obtain ⟨h1, _, d, t, h3, _⟩ := natText_spec v.natAbs
  have hd : isDigit d = true := h1 d (by rw [h3]; exact List.mem_cons_self _ _)
  unfold intText
  by_cases hv : v < 0
  · rw [if_pos hv]; exact ⟨_, _, rfl, Or.inr rfl⟩
  · rw [if_neg hv, h3]; exact ⟨_, _, rfl, Or.inl hd⟩

theorem writeValue_ofInt (v : Int) : writeValue (QJsonValue.ofInt v) = intText v := by
  simp [QJsonValue.ofInt, writeValue, doubleText]

theorem numberEnd_of_delimiter (d : Char)
    (h : d.toNat = 0x2c ∨ d.toNat = 0x5d ∨ d.toNat = 0x7d) : numberEnd d := by
  have hd := char_eq_of_toNat d _ rfl
  rcases h with h | h | h <;> rw [h] at hd <;> subst hd <;> exact ⟨by decide, by decide, by decide, by decide⟩

theorem readsBack_ofInt (v : Int) : ReadsBack (QJsonValue.ofInt v) := by
  obtain ⟨c, t, hct, hc⟩ := intText_cons v
  have hnat : (48 ≤ c.toNat ∧ c.toNat ≤ 57) ∨ c.toNat = 45 := by
    rcases hc with h | h
    · left; simpa [isDigit] using h
    · right; subst h; decide
  constructor
  · refine ⟨c, t, by rw [writeValue_ofInt, hct], ?_, by omega⟩
    simp only [isSpace, Bool.or_eq_false_iff, decide_eq_false_iff_not]
    omega
  · intro fuel nesting d rest hd
    rw [writeValue_ofInt]
    have e := parseNumber_intText v d rest (numberEnd_of_delimiter d hd)
    rw [hct] at e ⊢
    simp only [List.cons_append] at e ⊢
    rw [parseValue_succ, if_neg (by omega), if_neg (by omega), parseScalar_number _ _ hc, e]

theorem eatSpace_cons (c : Char) (cs : List Char) (h : isSpace c = false) :
    eatSpace (c :: cs) = c :: cs := by
  simp [eatSpace, h]

theorem writeArrayContent_cons (v : QJsonValue) (vs : List QJsonValue) (hv : ReadsBack v) :
    ∃ c t, writeArrayContent (v :: vs) = c :: t ∧ isSpace c = false ∧ c.toNat ≠ 0x5d := by
  obtain ⟨⟨c, t, h1, h2, h3⟩, _⟩ := hv
  cases vs with
  | nil => exact ⟨c, t, by rw [writeArrayContent, h1], h2, h3⟩
  | cons w ws => exact ⟨c, _, by rw [writeArrayContent, h1]; rfl, h2, h3⟩

theorem parseArrayValues_written (vs : List QJsonValue) :
    ∀ (v : QJsonValue) (fuel nesting : Nat) (acc : QJsonArray) (rest : List Char),
      (∀ x ∈ v :: vs, ReadsBack x) → vs.length + 2 ≤ fuel →
      parseArrayValues fuel nesting
          (writeArrayContent (v :: vs) ++ Char.ofNat 0x5d :: rest) acc
        = some (acc ++ v :: vs, rest) := by
  induction vs with
  | nil =>
    intro v fuel nesting acc rest hall hf
    obtain ⟨f, rfl⟩ : ∃ f, fuel = f + 1 + 1 := ⟨fuel - 2, by simp at hf; omega⟩
    have hv := (hall v (List.mem_cons_self _ _)).2 f nesting (Char.ofNat 0x5d) rest
      (Or.inr (Or.inl (by decide)))
    rw [writeArrayContent, parseArrayValues_succ, hv]
    dsimp only
    rw [eatSpace_cons _ _ (by decide)]
    dsimp only
    rw [if_pos (by decide)]
  | cons w ws ih =>
    intro v fuel nesting acc rest hall hf
    obtain ⟨f, rfl⟩ : ∃ f, fuel = f + 1 + 1 := ⟨fuel - 2, by simp at hf; omega⟩
    have hw : ∀ x ∈ w :: ws, ReadsBack x := fun x hx => hall x (List.mem_cons_of_mem _ hx)
    obtain ⟨c, t, h1, h2, _⟩ := writeArrayContent_cons w ws (hw w (List.mem_cons_self _ _))
    have hv := (hall v (List.mem_cons_self _ _)).2 f nesting ','
      (writeArrayContent (w :: ws) ++ Char.ofNat 0x5d :: rest) (Or.inl (by decide))
    have hrec := ih w (f + 1) nesting (acc ++ [v]) rest hw (by simp at hf ⊢; omega)
    rw [writeArrayContent, parseArrayValues_succ]
    simp only [List.append_assoc, List.cons_append]
    rw [hv]
    dsimp only
    rw [eatSpace_cons _ _ (by decide)]
    dsimp only
    rw [if_neg (by decide), if_pos (by decide)]
    rw [h1] at hrec ⊢
    simp only [List.cons_append] at hrec ⊢
    rw [eatSpace_cons _ _ h2]
    dsimp only
    rw [hrec]
    simp

theorem parseValue_array_written (vs : List QJsonValue) (fuel nesting : Nat)
    (d : Char) (rest : List Char) (hall : ∀ x ∈ vs, ReadsBack x) (hne : vs ≠ [])
    (hf : vs.length + 2 ≤ fuel) (hnest : nesting + 1 ≤ nestingLimit) :
    parseValue fuel nesting (writeValue (.array vs) ++ d :: rest) = some (.array vs, d :: rest) := by
  obtain ⟨f, rfl⟩ : ∃ f, fuel = f + 1 := ⟨fuel - 1, by omega⟩
  obtain ⟨v, ws, rfl⟩ : ∃ v ws, vs = v :: ws := by
    cases vs with
    | nil => exact absurd rfl hne
    | cons v ws => exact ⟨v, ws, rfl⟩
  obtain ⟨c, t, h1, h2, h3⟩ := writeArrayContent_cons v ws (hall v (List.mem_cons_self _ _))
  have hrec := parseArrayValues_written ws v f (nesting + 1) [] (d :: rest) hall
    (by simp at hf ⊢; omega)
  rw [writeValue]
  simp only [List.cons_append, List.append_assoc, List.singleton_append, List.nil_append]
  rw [parseValue_succ, if_pos (by decide), if_neg (by omega)]
  rw [h1] at hrec ⊢
  simp only [List.cons_append] at hrec ⊢
  rw [eatSpace_cons _ _ h2]
  dsimp only
  rw [if_neg h3, hrec]
  simp

theorem ReadsBackWith.mono {need need2 : Nat} {v : QJsonValue} (h : ReadsBackWith need v)
    (hle : need ≤ need2) : ReadsBackWith need2 v :=
  ⟨h.1, fun fuel nesting d rest hf hn hd => h.2 fuel nesting d rest (Nat.le_trans hle hf) hn hd⟩

theorem readsBackWith_of_readsBack (v : QJsonValue) (h : ReadsBack v) : ReadsBackWith 1 v := by
  obtain ⟨⟨c, t, h1, h2, _⟩, h3⟩ := h
  refine ⟨⟨c, t, h1, h2⟩, ?_⟩
  intro fuel nesting d rest hf _ hd
  obtain ⟨f, rfl⟩ : ∃ f, fuel = f + 1 := ⟨fuel - 1, by omega⟩
  exact h3 f nesting d rest hd

theorem readsBackWith_array (vs : List QJsonValue) (hall : ∀ x ∈ vs, ReadsBack x)
    (hne : vs ≠ []) : ReadsBackWith (vs.length + 2) (.array vs) := by
  refine ⟨⟨Char.ofNat 0x5b, writeArrayContent vs ++ [Char.ofNat 0x5d], by rw [writeValue]; rfl,
    by decide⟩, ?_⟩
  intro fuel nesting d rest hf hn _
  exact parseValue_array_written vs fuel nesting d rest hall hne hf hn

theorem writeObjectContent_cons (k : QString) (v : QJsonValue) (ms : List (QString × QJsonValue))
    (rest : List Char) :
    writeObjectContent ((k, v) :: ms) ++ Char.ofNat 0x7d :: rest
      = Char.ofNat 0x22 :: (escapedString k ++ Char.ofNat 0x22 :: ':' ::
          (writeValue v ++
            (match ms with
             | [] => Char.ofNat 0x7d :: rest
             | w :: ws => ',' :: (writeObjectContent (w :: ws) ++ Char.ofNat 0x7d :: rest)))) := by
  cases ms with
  | nil => rw [writeObjectContent]; simp
  | cons w ws => rw [writeObjectContent]; simp

theorem parseMembers_written (ms : List (QString × QJsonValue)) :
    ∀ (k : QString) (v : QJsonValue) (need fuel nesting : Nat) (acc : QJsonObject)
      (rest : List Char),
      (∀ x ∈ (k, v) :: ms, ReadsBackWith need x.2) → need + ms.length + 1 ≤ fuel →
      nesting < nestingLimit →
      parseMembers fuel nesting
          (writeObjectContent ((k, v) :: ms) ++ Char.ofNat 0x7d :: rest).tail acc
        = some (((k, v) :: ms).foldl (fun o kv => QJsonObject.insertSorted o kv.1 kv.2) acc,
            rest) := by
  induction ms with
  | nil =>
    intro k v need fuel nesting acc rest hall hf hn
    obtain ⟨f, rfl⟩ : ∃ f, fuel = f + 1 := ⟨fuel - 1, by omega⟩
    obtain ⟨⟨c, t, h1, h2⟩, h3⟩ := hall (k, v) (List.mem_cons_self _ _)
    have hv := h3 f nesting (Char.ofNat 0x7d) rest (by simp at hf; omega) hn
      (Or.inr (Or.inr (by decide)))
    dsimp only at h1 hv
    rw [writeObjectContent_cons, List.tail_cons, parseMembers_succ, parseString_escapedString]
    dsimp only
    rw [eatSpace_cons _ _ (by decide)]
    dsimp only
    rw [if_pos (by decide)]
    rw [h1] at hv ⊢
    simp only [List.cons_append] at hv ⊢
    rw [eatSpace_cons _ _ h2, hv]
    dsimp only
    rw [eatSpace_cons _ _ (by decide)]
    dsimp only
    rw [if_pos (by decide)]
    rfl
  | cons w ws ih =>
    intro k v need fuel nesting acc rest hall hf hn
    obtain ⟨f, rfl⟩ : ∃ f, fuel = f + 1 := ⟨fuel - 1, by omega⟩
    obtain ⟨⟨c, t, h1, h2⟩, h3⟩ := hall (k, v) (List.mem_cons_self _ _)
    have hv := h3 f nesting ','
      (writeObjectContent (w :: ws) ++ Char.ofNat 0x7d :: rest) (by simp at hf; omega) hn
      (Or.inl (by decide))
    have hrec := ih w.1 w.2 need f nesting (QJsonObject.insertSorted acc k v) rest
      (fun x hx => hall x (List.mem_cons_of_mem _ hx)) (by simp at hf ⊢; omega) hn
    dsimp only at h1 hv
    rw [writeObjectContent_cons, List.tail_cons, parseMembers_succ, parseString_escapedString]
    dsimp only
    rw [eatSpace_cons _ _ (by decide)]
    dsimp only
    rw [if_pos (by decide)]
    rw [h1] at hv ⊢
    simp only [List.cons_append] at hv ⊢
    rw [eatSpace_cons _ _ h2, hv]
    dsimp only
    rw [eatSpace_cons _ _ (by decide)]
    dsimp only
    rw [if_neg (by decide), if_pos (by decide)]
    rw [writeObjectContent_cons] at hrec ⊢
    rw [List.tail_cons] at hrec
    rw [eatSpace_cons _ _ (by decide)]
    dsimp only
    rw [if_pos (by decide), hrec]
    rfl

theorem parseValue_object_written (ms : List (QString × QJsonValue)) (need fuel nesting : Nat)
    (rest : List Char) (hall : ∀ x ∈ ms, ReadsBackWith need x.2) (hne : ms ≠ [])
    (hf : need + ms.length + 1 ≤ fuel) (hn : nesting + 1 < nestingLimit) :
    parseValue fuel nesting (writeValue (.object ms) ++ rest)
      = some (.object (ms.foldl (fun o kv => QJsonObject.insertSorted o kv.1 kv.2) []),
          rest) := by
  obtain ⟨f, rfl⟩ : ∃ f, fuel = f + 1 := ⟨fuel - 1, by omega⟩
  obtain ⟨⟨k, v⟩, ws, rfl⟩ : ∃ kv ws, ms = kv :: ws := by
    cases ms with
    | nil => exact absurd rfl hne
    | cons kv ws => exact ⟨kv, ws, rfl⟩
  have hrec := parseMembers_written ws k v need f (nesting + 1) [] rest hall
    (by simp at hf ⊢; omega) hn
  rw [writeValue]
  simp only [List.cons_append, List.append_assoc, List.singleton_append, List.nil_append]
  rw [parseValue_succ, if_neg (by decide), if_pos (by decide), if_neg (by omega)]
  rw [writeObjectContent_cons] at hrec ⊢
  rw [List.tail_cons] at hrec
  rw [eatSpace_cons _ _ (by decide)]
  dsimp only
  rw [if_neg (by decide), if_pos (by decide), hrec]

theorem dropByteOrderMark_of_ne (b : Nat) (bs : List Nat) (h : b ≠ 0xEF) :
    dropByteOrderMark (b :: bs) = b :: bs := by
  unfold dropByteOrderMark
  split
  · rename_i heq
    simp only [List.cons.injEq] at heq
    exact absurd heq.1 h
  · rfl

theorem fromJson_toJson_object (ms : List (QString × QJsonValue)) (need : Nat)
    (hall : ∀ x ∈ ms, ReadsBackWith need x.2) (hne : ms ≠ [])
    (hf : need + ms.length + 1 ≤ (writeValue (.object ms)).length) :
    QJsonDocument.fromJson (QJsonDocument.ofObject ms).toJson
      = some (.ofObject (ms.foldl (fun o kv => QJsonObject.insertSorted o kv.1 kv.2) [])) := by
  have hp := parseValue_object_written ms need ((writeValue (.object ms)).length + 1) 0 []
    hall hne (by omega) (by decide)
  have htext : writeValue (.object ms)
      = Char.ofNat 0x7b :: (writeObjectContent ms ++ [Char.ofNat 0x7d]) := by
    rw [writeValue]; rfl
  have hbytes : utf8Encode (writeValue (.object ms))
      = 0x7b :: utf8Encode (writeObjectContent ms ++ [Char.ofNat 0x7d]) := by
    rw [htext]
    simp only [utf8Encode, List.flatMap_cons]
    rfl
  unfold QJsonDocument.fromJson QJsonDocument.toJson
  dsimp only
  rw [hbytes, dropByteOrderMark_of_ne _ _ (by decide), ← hbytes, utf8Decode_encode]
  dsimp only
  unfold parseDocument
  rw [List.append_nil] at hp
  have hsp : eatSpace (writeValue (.object ms)) = writeValue (.object ms) := by
    rw [htext]; exact eatSpace_cons _ _ (by decide)
  rw [hsp, hp]
  rfl

theorem length_writeArrayContent (vs : List QJsonValue) (hall : ∀ x ∈ vs, ReadsBack x) :
    vs.length ≤ (writeArrayContent vs).length := by
  induction vs with
  | nil => simp
  | cons v ws ih =>
    obtain ⟨⟨c, t, h1, _, _⟩, _⟩ := hall v (List.mem_cons_self _ _)
    have hw := ih (fun x hx => hall x (List.mem_cons_of_mem _ hx))
    cases ws with
    | nil => rw [writeArrayContent, h1]; simp
    | cons w ws =>
      rw [writeArrayContent, h1]
      simp only [List.length_cons, List.length_append] at hw ⊢
      omega

/-! ## The command pack -/

namespace ProtocolUtils

theorem createDeviceCommandPack_eq (m : DeviceParameterMap) (hne : m ≠ []) :
    createDeviceCommandPack m = (QJsonDocument.ofObject (commandPackObject m)).toJson := by
  have he : DeviceParameterMap.isEmpty m = false := by
    cases m with
    | nil => exact absurd rfl hne
    | cons e rest => rfl
  have h1 : ¬ ("opt" : String) = "p" := by decide
  have h2 : QString.lessThan ("p" : String).data ("opt" : String).data = false := by decide
  have h3 : ¬ ("opt" : String) = "t" := by decide
  have h4 : QString.lessThan ("t" : String).data ("opt" : String).data = false := by decide
  have h5 : ¬ ("p" : String) = "t" := by decide
  have h6 : QString.lessThan ("t" : String).data ("p" : String).data = false := by decide
  simp [createDeviceCommandPack, he, commandPackObject, QJsonObject.fromInitializerList,
    QJsonObject.insert, QJsonObject.insertSorted, h1, h2, h3, h4, h5, h6,
    QJsonArray.fromStringList, QJsonArray.fromVariantList, QJsonValue.fromVariant]
  rfl

theorem commandPackObject_sorted (m : DeviceParameterMap) :
    (commandPackObject m).foldl (fun o kv => QJsonObject.insertSorted o kv.1 kv.2) []
      = commandPackObject m := by
  have h1 : ¬ ("opt" : String) = "p" := by decide
  have h2 : QString.lessThan ("p" : String).data ("opt" : String).data = false := by decide
  have h3 : ¬ ("opt" : String) = "t" := by decide
  have h4 : QString.lessThan ("t" : String).data ("opt" : String).data = false := by decide
  have h5 : ¬ ("p" : String) = "t" := by decide
  have h6 : QString.lessThan ("t" : String).data ("p" : String).data = false := by decide
  simp [commandPackObject, QJsonObject.insertSorted, h1, h2, h3, h4, h5, h6]

theorem commandPackObject_readsBack (m : DeviceParameterMap) (hne : m ≠ []) :
    ∀ x ∈ commandPackObject m, ReadsBackWith (m.length + 2) x.2 := by
  have hk : ∀ x ∈ m.keys.map QJsonValue.string, ReadsBack x := by
    intro x hx
    obtain ⟨s, _, rfl⟩ := List.mem_map.mp hx
    exact readsBack_string s
  have hv : ∀ x ∈ m.values.map QJsonValue.ofInt, ReadsBack x := by
    intro x hx
    obtain ⟨v, _, rfl⟩ := List.mem_map.mp hx
    exact readsBack_ofInt v
  have hkne : m.keys.map QJsonValue.string ≠ [] := by
    simpa [DeviceParameterMap.keys] using hne
  have hvne : m.values.map QJsonValue.ofInt ≠ [] := by
    simpa [DeviceParameterMap.values] using hne
  have a1 := readsBackWith_array _ hk hkne
  have a2 := readsBackWith_array _ hv hvne
  have a3 := (readsBackWith_of_readsBack _ (readsBack_string "cmd")).mono
    (show 1 ≤ m.length + 2 by omega)
  simp only [List.length_map, DeviceParameterMap.keys, DeviceParameterMap.values] at a1 a2
  intro x hx
  simp only [commandPackObject, List.mem_cons, List.mem_singleton, List.not_mem_nil,
    or_false] at hx
  rcases hx with rfl | rfl | rfl
  · exact a1
  · exact a2
  · exact a3

theorem commandPackObject_length (m : DeviceParameterMap) :
    m.length + 6 ≤ (writeValue (.object (commandPackObject m))).length := by
  have hv : ∀ x ∈ m.values.map QJsonValue.ofInt, ReadsBack x := by
    intro x hx
    obtain ⟨v, _, rfl⟩ := List.mem_map.mp hx
    exact readsBack_ofInt v
  have h := length_writeArrayContent _ hv
  simp only [List.length_map, DeviceParameterMap.values] at h
  simp only [commandPackObject, DeviceParameterMap.values]
  simp only [writeValue, writeObjectContent, List.length_cons, List.length_append]
  omega

theorem fromJson_createDeviceCommandPack (m : DeviceParameterMap) (hne : m ≠ []) :
    QJsonDocument.fromJson (createDeviceCommandPack m)
      = some (.ofObject (commandPackObject m)) := by
  rw [createDeviceCommandPack_eq m hne,
    fromJson_toJson_object (commandPackObject m) (m.length + 2)
      (commandPackObject_readsBack m hne) (by simp [commandPackObject])
      (by have := commandPackObject_length m; simp only [commandPackObject, List.length_cons,
            List.length_nil] at this ⊢; omega),
    commandPackObject_sorted]

theorem statusLoop_commandPack (m : DeviceParameterMap) (hwf : m.WF) :
    ∀ n, n ≤ m.length →
      statusLoop (m.keys.map QJsonValue.string) (m.values.map QJsonValue.ofInt) n = m.take n := by
  intro n
  induction n with
  | zero => intro _; simp [statusLoop_zero]
  | succ n ih =>
    intro hn
    have hlt : n < m.length := hn
    have hk : (QJsonArray.index (m.keys.map QJsonValue.string) n).toString = (m[n]).1 := by
      simp [QJsonArray.index, DeviceParameterMap.keys, List.getD_eq_getElem?_getD, hlt,
        QJsonValue.toString]
    have hv : (QJsonArray.index (m.values.map QJsonValue.ofInt) n).toInt = (m[n]).2 := by
      have := QJsonValue.toInt_ofInt (m[n]).2 (hwf.2 _ (List.getElem_mem _))
      simp [QJsonArray.index, DeviceParameterMap.values, List.getD_eq_getElem?_getD, hlt, this]
    have hsplit : m = m.take n ++ m[n] :: m.drop (n + 1) := by
      rw [← List.drop_eq_getElem_cons, List.take_append_drop]
    have hfresh : (m[n]).1 ∉ DeviceParameterMap.keys (m.take n) := by
      have hnd := hwf.1
      rw [hsplit] at hnd
      simp only [DeviceParameterMap.keys, List.map_append, List.map_cons] at hnd
      have h2 := (List.nodup_middle.mp hnd)
      rw [List.nodup_cons] at h2
      intro hmem
      apply h2.1
      simp only [DeviceParameterMap.keys] at hmem
      exact List.mem_append_left _ (by simpa using hmem)
    rw [statusLoop_succ, ih (Nat.le_of_lt hlt), hk, hv,
      DeviceParameterMap.assign_fresh _ _ _ hfresh, List.take_succ,
      List.getElem?_eq_getElem hlt]
    rfl

theorem zip_keys_values (m : DeviceParameterMap) (hint : ∀ e ∈ m, isInt e.2) :
    List.zip ((m.keys.map QJsonValue.string).map QJsonValue.toString)
      ((m.values.map QJsonValue.ofInt).map QJsonValue.toInt) = m := by
  induction m with
  | nil => rfl
  | cons e rest ih =>
    have h1 := QJsonValue.toInt_ofInt e.2 (hint e (List.mem_cons_self _ _))
    have h2 := ih (fun x hx => hint x (List.mem_cons_of_mem _ hx))
    simp only [DeviceParameterMap.keys, DeviceParameterMap.values, List.map_cons,
      List.zip_cons_cons, QJsonValue.toString, h1] at h2 ⊢
    rw [h2]

theorem find_getElem_of_nodup (m : DeviceParameterMap) (hnd : m.keys.Nodup) :
    ∀ (k : Nat) (hk : k < m.length), DeviceParameterMap.find m (m[k]).1 = some (m[k]).2 := by
  induction m with
  | nil => intro k hk; exact absurd hk (Nat.not_lt_zero _)
  | cons e rest ih =>
    obtain ⟨a, b⟩ := e
    simp only [DeviceParameterMap.keys, List.map_cons, List.nodup_cons] at hnd
    intro k hk
    cases k with
    | zero => simp [DeviceParameterMap.find]
    | succ j =>
      have hj : j < rest.length := by simpa using hk
      have hne : ¬ a = (rest[j]).1 := by
        intro h
        apply hnd.1
        rw [h]
        exact List.mem_map_of_mem _ (List.getElem_mem _)
      simp only [List.getElem_cons_succ, DeviceParameterMap.find, if_neg hne]
      exact ih hnd.2 j hj

theorem writeArrayContent_intercalate (vs : List QJsonValue) :
    writeArrayContent vs = [','].intercalate (vs.map writeValue) := by
  induction vs with
  | nil => rfl
  | cons v ws ih =>
    cases ws with
    | nil => simp [writeArrayContent, List.intercalate]
    | cons w ws =>
      rw [writeArrayContent, ih]
      simp [List.intercalate, List.intersperse]

/-! ## The claims about `createDeviceCommandPack` -/

/-- C1: for a non-empty parameter map `m` (unique keys, `int` values), the bytes returned by
`createDeviceCommandPack m` parse to an object whose arrays `opt` and `p` have the length of
`m`; zipped position by position they give back the entries of `m` in iteration order: `opt[k]`
is the `k`-th key and `p[k]` is the value that `m` holds for it. -/
theorem createDeviceCommandPack_round_trip (m : DeviceParameterMap) (hne : m ≠ [])
    (hwf : m.WF) :
    ∃ (pack : QJsonObject) (opt p : QJsonArray),
      (QJsonDocument.fromJson (createDeviceCommandPack m)).map QJsonDocument.object = some pack
      ∧ pack.value "opt" = .array opt ∧ pack.value "p" = .array p
      ∧ opt.length = m.length ∧ p.length = m.length
      ∧ List.zip (opt.map QJsonValue.toString) (p.map QJsonValue.toInt) = m
      ∧ ∀ k, k < m.length →
          (opt.index k).toString = m.keys.getD k ""
          ∧ DeviceParameterMap.find m (opt.index k).toString = some (p.index k).toInt := by
  refine ⟨commandPackObject m, m.keys.map QJsonValue.string, m.values.map QJsonValue.ofInt,
    ?_, ?_, ?_, ?_, ?_, zip_keys_values m hwf.2, ?_⟩
  · rw [fromJson_createDeviceCommandPack m hne]; rfl
  · simp [commandPackObject, QJsonObject.value]
  · simp [commandPackObject, QJsonObject.value]
  · simp [DeviceParameterMap.keys]
  · simp [DeviceParameterMap.values]
  · intro k hk
    have hkey : (QJsonArray.index (m.keys.map QJsonValue.string) k).toString = (m[k]).1 := by
      simp [QJsonArray.index, DeviceParameterMap.keys, List.getD_eq_getElem?_getD, hk,
        QJsonValue.toString]
    have hval : (QJsonArray.index (m.values.map QJsonValue.ofInt) k).toInt = (m[k]).2 := by
      have := QJsonValue.toInt_ofInt (m[k]).2 (hwf.2 _ (List.getElem_mem _))
      simp [QJsonArray.index, DeviceParameterMap.values, List.getD_eq_getElem?_getD, hk, this]
    rw [hkey, hval]
    refine ⟨?_, find_getElem_of_nodup m hwf.1 k hk⟩
    simp [DeviceParameterMap.keys, List.getD_eq_getElem?_getD, hk]

theorem createDeviceCommandPack_round_trip_witness :
    ∃ (pack : QJsonObject) (opt p : QJsonArray),
      (QJsonDocument.fromJson (createDeviceCommandPack [("Pow", 1), ("SetTem", 25)])).map
          QJsonDocument.object = some pack
      ∧ pack.value "opt" = .array opt ∧ pack.value "p" = .array p
      ∧ opt.length = 2 ∧ p.length = 2
      ∧ List.zip (opt.map QJsonValue.toString) (p.map QJsonValue.toInt)
          = [("Pow", 1), ("SetTem", 25)]
      ∧ ∀ k, k < 2 →
          (opt.index k).toString = (DeviceParameterMap.keys [("Pow", 1), ("SetTem", 25)]).getD k ""
          ∧ DeviceParameterMap.find [("Pow", 1), ("SetTem", 25)] (opt.index k).toString
              = some (p.index k).toInt :=
  createDeviceCommandPack_round_trip [("Pow", 1), ("SetTem", 25)] (by decide) (by decide)

/-- C2: for a non-empty parameter map `m` (unique keys, `int` values), the pack parsed from
`createDeviceCommandPack m`, read with `opt` as `cols`, `p` as `dat` and the type `dat`, is
turned by `readStatusMapFromPack` into `m` again: same keys, same values, same order. -/
theorem readStatusMapFromPack_createDeviceCommandPack (m : DeviceParameterMap) (hne : m ≠ [])
    (hwf : m.WF) :
    ∃ pack : QJsonObject,
      (QJsonDocument.fromJson (createDeviceCommandPack m)).map QJsonDocument.object = some pack
      ∧ readStatusMapFromPack (asStatusPack pack) = m := by
  refine ⟨commandPackObject m, by rw [fromJson_createDeviceCommandPack m hne]; rfl, ?_⟩
  have hk : m.keys.map QJsonValue.string ≠ [] := by
    simpa [DeviceParameterMap.keys] using hne
  have hlen : (m.keys.map QJsonValue.string).length = (m.values.map QJsonValue.ofInt).length := by
    simp [DeviceParameterMap.keys, DeviceParameterMap.values]
  rw [readStatusMapFromPack_accepts (asStatusPack (commandPackObject m))
      (m.keys.map QJsonValue.string) (m.values.map QJsonValue.ofInt)
      (by simp [asStatusPack, QJsonObject.value])
      (by simp [asStatusPack, commandPackObject, QJsonObject.value])
      (by simp [asStatusPack, commandPackObject, QJsonObject.value]) hk hlen,
    statusLoop_commandPack m hwf _ (by simp [DeviceParameterMap.keys])]
  simp [DeviceParameterMap.keys]

theorem readStatusMapFromPack_createDeviceCommandPack_witness :
    ∃ pack : QJsonObject,
      (QJsonDocument.fromJson (createDeviceCommandPack [("Pow", 1), ("SetTem", 25)])).map
          QJsonDocument.object = some pack
      ∧ readStatusMapFromPack (asStatusPack pack) = [("Pow", 1), ("SetTem", 25)] :=
  readStatusMapFromPack_createDeviceCommandPack [("Pow", 1), ("SetTem", 25)] (by decide)
    (by decide)

/-- C9: for the empty parameter map `createDeviceCommandPack` returns no bytes at all; the
text of an empty object and the text of a pack with empty arrays are both different from
that. -/
theorem createDeviceCommandPack_empty :
    createDeviceCommandPack [] = []
    ∧ (QJsonDocument.ofObject []).toJson ≠ createDeviceCommandPack []
    ∧ (QJsonDocument.ofObject (commandPackObject [])).toJson ≠ createDeviceCommandPack [] := by
  decide

/-- C10: for a non-empty parameter map `m` with `N` entries `createDeviceCommandPack m` is a
non-empty byte sequence, the compact text
`{"opt":[<names>],"p":[<values>],"t":"cmd"}` of the object with exactly the members `opt`, `p`
and `t`; it parses to that object, `t` is the string `cmd`, `opt` holds `N` strings and `p`
holds `N` integer numbers, so both arrays have the same length and are not empty. -/
theorem createDeviceCommandPack_shape (m : DeviceParameterMap) (hne : m ≠ []) :
    createDeviceCommandPack m ≠ []
    ∧ createDeviceCommandPack m
        = utf8Encode ("\x7b\"opt\":[".data
            ++ [','].intercalate (m.keys.map (fun k => writeValue (.string k)))
            ++ "],\"p\":[".data
            ++ [','].intercalate (m.values.map intText)
            ++ "],\"t\":\"cmd\"\x7d".data)
    ∧ QJsonDocument.fromJson (createDeviceCommandPack m)
        = some (.ofObject
            [("opt", .array (m.keys.map QJsonValue.string)),
             ("p", .array (m.values.map QJsonValue.ofInt)),
             ("t", .string "cmd")])
    ∧ (m.keys.map QJsonValue.string).length = m.length
    ∧ (m.values.map QJsonValue.ofInt).length = m.length
    ∧ 0 < m.length
    ∧ ∀ x ∈ m.values.map QJsonValue.ofInt, isIntegerNumber x := by
  have htext : createDeviceCommandPack m
      = utf8Encode ("\x7b\"opt\":[".data
          ++ [','].intercalate (m.keys.map (fun k => writeValue (.string k)))
          ++ "],\"p\":[".data
          ++ [','].intercalate (m.values.map intText)
          ++ "],\"t\":\"cmd\"\x7d".data) := by
    rw [createDeviceCommandPack_eq m hne]
    unfold QJsonDocument.toJson
    dsimp only
    congr 1
    have hv : (fun v => writeValue (QJsonValue.ofInt v)) = intText :=
      funext writeValue_ofInt
    have hs : escapedString "opt" = "opt".data ∧ escapedString "p" = "p".data
        ∧ escapedString "t" = "t".data ∧ escapedString "cmd" = "cmd".data := by decide
    simp only [commandPackObject, writeValue, writeObjectContent, writeArrayContent_intercalate,
      List.map_map, Function.comp_def, hv, hs.1, hs.2.1, hs.2.2.1, hs.2.2.2]
    simp
    rfl
  refine ⟨?_, htext, fromJson_createDeviceCommandPack m hne, by simp [DeviceParameterMap.keys],
    by simp [DeviceParameterMap.values], List.length_pos.mpr hne, ?_⟩
  · rw [htext]
    simp [utf8Encode, utf8EncodeChar]
  · intro x hx
    obtain ⟨v, _, rfl⟩ := List.mem_map.mp hx
    simp [QJsonValue.ofInt, isIntegerNumber]

theorem createDeviceCommandPack_shape_witness :
    createDeviceCommandPack [("Pow", 1), ("SetTem", 25)]
      = utf8Encode "\x7b\"opt\":[\"Pow\",\"SetTem\"],\"p\":[1,25],\"t\":\"cmd\"\x7d".data :=
  (createDeviceCommandPack_shape [("Pow", 1), ("SetTem", 25)] (by decide)).2.1.trans
    (by decide)

/-! ## The claims about `readStatusMapFromPack` -/

/-- C3: a pack whose `cols` and `dat` arrays have different lengths yields the empty map,
whatever the arrays hold and whatever the other members of the pack are; nothing is cut to the
shorter array or filled up. -/
theorem readStatusMapFromPack_size_mismatch (pack : QJsonObject) (cols dat : QJsonArray)
    (hc : pack.value "cols" = .array cols) (hd : pack.value "dat" = .array dat)
    (hlen : cols.length ≠ dat.length) :
    readStatusMapFromPack pack = [] := by
  unfold readStatusMapFromPack
  simp only [hc, hd, QJsonValue.toArray]
  split_ifs <;> rfl

theorem readStatusMapFromPack_size_mismatch_witness :
    readStatusMapFromPack
      [("cols", .array [.string "Pow", .string "Mod"]), ("dat", .array [.double 1]),
       ("t", .string "dat")] = [] :=
  readStatusMapFromPack_size_mismatch _ [.string "Pow", .string "Mod"] [.double 1] rfl rfl
    (by decide)

/-- C4: a pack whose member `t` is not the string `dat` (no member `t`, a value of another
kind, or another string such as `cmd`) yields the empty map, also when `cols` and `dat` are
non-empty arrays of equal length. -/
theorem readStatusMapFromPack_type_mismatch (pack : QJsonObject)
    (ht : pack.value "t" ≠ .string "dat") :
    readStatusMapFromPack pack = [] := by
  have he : QJsonValue.equals (pack.value "t") (.string "dat") = false := by
    cases h : QJsonValue.equals (pack.value "t") (.string "dat")
    · rfl
    · exact absurd ((QJsonValue.equals_string_iff _ _).mp h) ht
  simp [readStatusMapFromPack, he]

theorem readStatusMapFromPack_type_mismatch_witness :
    readStatusMapFromPack
      [("cols", .array [.string "Pow"]), ("dat", .array [.double 1]), ("t", .string "cmd")]
      = [] :=
  readStatusMapFromPack_type_mismatch _ (by simp [QJsonObject.value])

/-- C5: a pack in which `cols` is an empty array or `dat` is an empty array yields the empty
map. -/
theorem readStatusMapFromPack_empty_array (pack : QJsonObject)
    (h : pack.value "cols" = .array [] ∨ pack.value "dat" = .array []) :
    readStatusMapFromPack pack = [] := by
  unfold readStatusMapFromPack
  rcases h with h | h
  · simp only [h, QJsonValue.toArray]
    split_ifs <;> rfl
  · simp only [h, QJsonValue.toArray]
    split_ifs <;> first | rfl | simp_all

theorem readStatusMapFromPack_empty_array_witness :
    readStatusMapFromPack
      [("cols", .array [.string "Pow"]), ("dat", .array []), ("t", .string "dat")] = [] :=
  readStatusMapFromPack_empty_array _ (Or.inr rfl)

/-- C6: a pack in which `cols` is absent or not an array, or `dat` is absent or not an array,
yields the empty map. -/
theorem readStatusMapFromPack_not_array (pack : QJsonObject)
    (h : ("cols" ∉ pack.map Prod.fst ∨ (pack.value "cols").isArray = false)
      ∨ ("dat" ∉ pack.map Prod.fst ∨ (pack.value "dat").isArray = false)) :
    readStatusMapFromPack pack = [] := by
  have h2 : (pack.value "cols").isArray = false ∨ (pack.value "dat").isArray = false := by
    rcases h with (h | h) | (h | h)
    · left; rw [value_absent pack "cols" h]; rfl
    · left; exact h
    · right; rw [value_absent pack "dat" h]; rfl
    · right; exact h
  unfold readStatusMapFromPack
  rcases h2 with h | h
  · simp only [h]
    split_ifs <;> first | rfl | simp_all
  · simp only [h]
    split_ifs <;> first | rfl | simp_all

theorem readStatusMapFromPack_not_array_witness :
    readStatusMapFromPack [("cols", .array [.string "Pow"]), ("t", .string "dat")] = [] :=
  readStatusMapFromPack_not_array _ (Or.inr (Or.inl (by decide)))

/-- C7: for a pack with `t = "dat"` and non-empty arrays `cols` and `dat` of equal length `n`,
the keys of the returned map are exactly the names `cols[k]` read as strings, `k < n`, each
once, and every name is mapped to `dat[j]` read as integer for the largest index `j` that
carries the name (a later duplicate overwrites an earlier one). -/
theorem readStatusMapFromPack_builds_map (pack : QJsonObject) (cols dat : QJsonArray)
    (ht : pack.value "t" = .string "dat") (hc : pack.value "cols" = .array cols)
    (hd : pack.value "dat" = .array dat) (hne : cols ≠ [])
    (hlen : cols.length = dat.length) :
    (DeviceParameterMap.keys (readStatusMapFromPack pack)).Nodup
    ∧ (∀ name, name ∈ DeviceParameterMap.keys (readStatusMapFromPack pack)
        ↔ ∃ k, k < cols.length ∧ (cols.index k).toString = name)
    ∧ (∀ j, j < cols.length
        → (∀ i, j < i → i < cols.length → (cols.index i).toString ≠ (cols.index j).toString)
        → DeviceParameterMap.find (readStatusMapFromPack pack) (cols.index j).toString
            = some (dat.index j).toInt) := by
  rw [readStatusMapFromPack_accepts pack cols dat ht hc hd hne hlen]
  exact statusLoop_spec cols dat cols.length

theorem readStatusMapFromPack_builds_map_witness :
    (DeviceParameterMap.keys (readStatusMapFromPack
      [("cols", .array [.string "Pow", .string "Mod", .string "Pow"]),
       ("dat", .array [.double 1, .double 2, .double 3]), ("t", .string "dat")])).Nodup
    ∧ (∀ name, name ∈ DeviceParameterMap.keys (readStatusMapFromPack
      [("cols", .array [.string "Pow", .string "Mod", .string "Pow"]),
       ("dat", .array [.double 1, .double 2, .double 3]), ("t", .string "dat")])
        ↔ ∃ k, k < 3
          ∧ (QJsonArray.index [.string "Pow", .string "Mod", .string "Pow"] k).toString = name)
    ∧ (∀ j, j < 3
        → (∀ i, j < i → i < 3
          → (QJsonArray.index [.string "Pow", .string "Mod", .string "Pow"] i).toString
            ≠ (QJsonArray.index [.string "Pow", .string "Mod", .string "Pow"] j).toString)
        → DeviceParameterMap.find (readStatusMapFromPack
            [("cols", .array [.string "Pow", .string "Mod", .string "Pow"]),
             ("dat", .array [.double 1, .double 2, .double 3]), ("t", .string "dat")])
            (QJsonArray.index [.string "Pow", .string "Mod", .string "Pow"] j).toString
            = some (QJsonArray.index [.double 1, .double 2, .double 3] j).toInt) :=
  readStatusMapFromPack_builds_map _ [.string "Pow", .string "Mod", .string "Pow"]
    [.double 1, .double 2, .double 3] rfl rfl rfl (by simp) rfl

/-- C8: in a pack with `t = "dat"` and non-empty arrays of equal length, a value `dat[k]` that
is not an integer number (a string, a boolean, null, an object, an array, a number with a
fraction) does not make the pack rejected: the name `cols[k]` is a key of the result, with the
value 0 unless a later index carries the same name, and the whole result is the one obtained
from the pack in which `dat[k]` is the number 0. -/
theorem readStatusMapFromPack_lenient_value (pack pack0 : QJsonObject) (cols dat : QJsonArray)
    (k : Nat)
    (ht : pack.value "t" = .string "dat") (hc : pack.value "cols" = .array cols)
    (hd : pack.value "dat" = .array dat)
    (ht0 : pack0.value "t" = .string "dat") (hc0 : pack0.value "cols" = .array cols)
    (hd0 : pack0.value "dat" = .array (dat.set k (.double 0)))
    (hlen : cols.length = dat.length) (hk : k < dat.length)
    (hbad : ¬ isIntegerNumber (dat.index k)) :
    (cols.index k).toString ∈ DeviceParameterMap.keys (readStatusMapFromPack pack)
    ∧ ((∀ i, k < i → i < cols.length → (cols.index i).toString ≠ (cols.index k).toString)
        → DeviceParameterMap.find (readStatusMapFromPack pack) (cols.index k).toString = some 0)
    ∧ readStatusMapFromPack pack = readStatusMapFromPack pack0 := by
  have hne : cols ≠ [] := by
    intro h
    rw [h] at hlen
    simp only [List.length_nil] at hlen
    omega
  have hlen0 : cols.length = (dat.set k (.double 0)).length := by
    rw [List.length_set]; exact hlen
  rw [readStatusMapFromPack_accepts pack cols dat ht hc hd hne hlen,
    readStatusMapFromPack_accepts pack0 cols _ ht0 hc0 hd0 hne hlen0]
  obtain ⟨_, h2, h3⟩ := statusLoop_spec cols dat cols.length
  have hz := toInt_eq_zero_of_not_integer _ hbad
  refine ⟨(h2 _).mpr ⟨k, hlen ▸ hk, rfl⟩, ?_, ?_⟩
  · intro hlast
    rw [h3 k (hlen ▸ hk) hlast, hz]
  · apply statusLoop_congr
    intro i _
    by_cases hik : i = k
    · subst hik
      rw [hz]
      simp [QJsonArray.index, List.getD_eq_getElem?_getD, List.getElem?_set, hk,
        QJsonValue.toInt, INT_MIN, INT_MAX]
    · have hki : ¬ k = i := fun e => hik e.symm
      simp [QJsonArray.index, List.getD_eq_getElem?_getD, List.getElem?_set, hki]

theorem readStatusMapFromPack_lenient_value_witness :
    (QJsonArray.index [.string "Pow", .string "Mod"] 1).toString
      ∈ DeviceParameterMap.keys (readStatusMapFromPack
          [("cols", .array [.string "Pow", .string "Mod"]),
           ("dat", .array [.double 1, .string "x"]), ("t", .string "dat")])
    ∧ ((∀ i, 1 < i → i < 2 → (QJsonArray.index [.string "Pow", .string "Mod"] i).toString
          ≠ (QJsonArray.index [.string "Pow", .string "Mod"] 1).toString)
        → DeviceParameterMap.find (readStatusMapFromPack
            [("cols", .array [.string "Pow", .string "Mod"]),
             ("dat", .array [.double 1, .string "x"]), ("t", .string "dat")])
            (QJsonArray.index [.string "Pow", .string "Mod"] 1).toString = some 0)
    ∧ readStatusMapFromPack
        [("cols", .array [.string "Pow", .string "Mod"]),
         ("dat", .array [.double 1, .string "x"]), ("t", .string "dat")]
      = readStatusMapFromPack
        [("cols", .array [.string "Pow", .string "Mod"]),
         ("dat", .array [.double 1, .double 0]), ("t", .string "dat")] :=
  readStatusMapFromPack_lenient_value _ _ [.string "Pow", .string "Mod"]
    [.double 1, .string "x"] 1 rfl rfl rfl rfl rfl rfl rfl (by decide)
    (by simp [QJsonArray.index, isIntegerNumber])

/-! ## `QString::fromUtf8` on well-formed text -/

theorem char_toNat_ofNat_of_scalar (u : Nat) (h : isScalar u = true) :
    (Char.ofNat u).toNat = u := by
  have hv : u.isValidChar := by
    simp only [isScalar, Bool.or_eq_true, Bool.and_eq_true, decide_eq_true_eq] at h
    exact h
  have hlt : u < UInt32.size := by
    simp only [isScalar, Bool.or_eq_true, Bool.and_eq_true, decide_eq_true_eq] at h
    simp only [UInt32.size]; omega
  simp [Char.ofNat, hv, Char.ofNatAux, Char.toNat, UInt32.toNat, Nat.mod_eq_of_lt hlt]

theorem utf8EncodeChar_of_decodeChar (bytes rest : List Nat) (c : Char)
    (h : utf8DecodeChar bytes = some (c, rest)) :
    bytes = utf8EncodeChar c.toNat ++ rest := by
  cases bytes with
  | nil => rw [utf8DecodeChar.eq_def] at h; exact absurd h (by simp)
  | cons b0 bs =>
    rw [utf8DecodeChar.eq_def] at h
    dsimp only at h
    by_cases h1 : b0 < 0x80
    · rw [if_pos h1] at h
      simp only [Option.some.injEq, Prod.mk.injEq] at h
      obtain ⟨hc, hr⟩ := h
      subst hc hr
      rw [char_toNat_ofNat_of_scalar b0 (by simp [isScalar]; omega)]
      simp [utf8EncodeChar, h1]
    · rw [if_neg h1] at h
      by_cases h2 : b0 < 0xC0
      · rw [if_pos h2] at h; exact absurd h (by simp)
      · rw [if_neg h2] at h
        by_cases h3 : b0 < 0xE0
        · rw [if_pos h3] at h
          cases bs with
          | nil => exact absurd h (by simp)
          | cons b1 r1 =>
            dsimp only at h
            split at h
            · rename_i hcond
              simp only [Bool.and_eq_true, decide_eq_true_eq, isContinuation] at hcond
              simp only [Option.some.injEq, Prod.mk.injEq] at h
              obtain ⟨hc, hr⟩ := h
              subst hc hr
              rw [char_toNat_ofNat_of_scalar _ (by simp [isScalar]; omega)]
              have e1 : ¬ (b0 - 192) * 64 + (b1 - 128) < 128 := by omega
              have e2 : (b0 - 192) * 64 + (b1 - 128) < 2048 := by omega
              simp only [utf8EncodeChar, e1, e2, if_false, if_true, List.cons_append,
                List.nil_append, List.cons.injEq, and_true]
              omega
            · exact absurd h (by simp)
        · rw [if_neg h3] at h
          by_cases h4 : b0 < 0xF0
          · rw [if_pos h4] at h
            match bs, h with
            | [], h => exact absurd h (by simp)
            | [_], h => exact absurd h (by simp)
            | b1 :: b2 :: r2, h =>
              dsimp only at h
              split at h
              · rename_i hcond
                simp only [Bool.and_eq_true, decide_eq_true_eq, isContinuation] at hcond
                obtain ⟨⟨⟨hb1, hb2⟩, hlo⟩, hsc⟩ := hcond
                simp only [Option.some.injEq, Prod.mk.injEq] at h
                obtain ⟨hc, hr⟩ := h
                subst hc hr
                rw [char_toNat_ofNat_of_scalar _ hsc]
                have e1 : ¬ (b0 - 224) * 4096 + (b1 - 128) * 64 + (b2 - 128) < 128 := by omega
                have e2 : ¬ (b0 - 224) * 4096 + (b1 - 128) * 64 + (b2 - 128) < 2048 := by omega
                have e3 : (b0 - 224) * 4096 + (b1 - 128) * 64 + (b2 - 128) < 65536 := by omega
                simp only [utf8EncodeChar, e1, e2, e3, if_false, if_true, List.cons_append,
                  List.nil_append, List.cons.injEq, and_true]
                omega
              · exact absurd h (by simp)
          · rw [if_neg h4] at h
            by_cases h5 : b0 < 0xF8
            · rw [if_pos h5] at h
              match bs, h with
              | [], h => exact absurd h (by simp)
              | [_], h => exact absurd h (by simp)
              | [_, _], h => exact absurd h (by simp)
              | b1 :: b2 :: b3 :: r3, h =>
                dsimp only at h
                split at h
                · rename_i hcond
                  simp only [Bool.and_eq_true, decide_eq_true_eq, isContinuation] at hcond
                  obtain ⟨⟨⟨⟨hb1, hb2⟩, hb3⟩, hlo⟩, hsc⟩ := hcond
                  simp only [Option.some.injEq, Prod.mk.injEq] at h
                  obtain ⟨hc, hr⟩ := h
                  subst hc hr
                  rw [char_toNat_ofNat_of_scalar _ hsc]
                  have e1 : ¬ (b0 - 240) * 262144 + (b1 - 128) * 4096 + (b2 - 128) * 64
                      + (b3 - 128) < 128 := by omega
                  have e2 : ¬ (b0 - 240) * 262144 + (b1 - 128) * 4096 + (b2 - 128) * 64
                      + (b3 - 128) < 2048 := by omega
                  have e3 : ¬ (b0 - 240) * 262144 + (b1 - 128) * 4096 + (b2 - 128) * 64
                      + (b3 - 128) < 65536 := by omega
                  simp only [utf8EncodeChar, e1, e2, e3, if_false, List.cons_append,
                    List.nil_append, List.cons.injEq, and_true]
                  omega
                · exact absurd h (by simp)
            · rw [if_neg h5] at h; exact absurd h (by simp)

theorem utf8DecodeAux_sound (fuel : Nat) :
    ∀ (bytes : List Nat) (cs : List Char), utf8DecodeAux fuel bytes = some cs →
      utf8Encode cs = bytes ∧ utf8DecodeLenientAux fuel bytes = cs := by
  induction fuel with
  | zero =>
    intro bytes cs h
    cases bytes with
    | nil =>
      simp only [utf8DecodeAux, Option.some.injEq] at h
      subst h
      exact ⟨rfl, rfl⟩
    | cons b rest => simp [utf8DecodeAux] at h
  | succ f ih =>
    intro bytes cs h
    cases bytes with
    | nil =>
      simp only [utf8DecodeAux, Option.some.injEq] at h
      subst h
      exact ⟨rfl, rfl⟩
    | cons b rest =>
      rw [utf8DecodeAux] at h
      rw [utf8DecodeLenientAux]
      cases hstep : utf8DecodeChar (b :: rest) with
      | none => rw [hstep] at h; exact absurd h (by simp)
      | some p =>
        obtain ⟨c, rest1⟩ := p
        rw [hstep] at h
        dsimp only at h ⊢
        cases hrec : utf8DecodeAux f rest1 with
        | none => rw [hrec] at h; exact absurd h (by simp)
        | some t =>
          rw [hrec] at h
          simp only [Option.map_some', Option.some.injEq] at h
          subst h
          obtain ⟨i1, i2⟩ := ih rest1 t hrec
          refine ⟨?_, by rw [i2]⟩
          rw [utf8EncodeChar_of_decodeChar _ _ _ hstep]
          simp only [utf8Encode, List.flatMap_cons] at i1 ⊢
          rw [i1]

theorem takeUntilNul_of_not_mem (bytes : List Nat) (h : 0 ∉ bytes) :
    takeUntilNul bytes = bytes := by
  induction bytes with
  | nil => rfl
  | cons b rest ih =>
    simp only [List.mem_cons, not_or] at h
    have hb : ¬ b = 0 := fun e => h.1 e.symm
    simp [takeUntilNul, hb, ih h.2]

theorem dropUtf8Bom_of_not_starts (bytes : List Nat) (h : startsWithBom bytes = false) :
    dropUtf8Bom bytes = bytes := by
  unfold dropUtf8Bom
  split
  · simp [startsWithBom] at h
  · rfl

theorem fromUtf8_of_valid (e : QByteArray) (cs : List Char) (hvalid : utf8Decode e = some cs)
    (hnul : 0 ∉ e) (hbom : startsWithBom e = false) :
    QString.fromUtf8 e = String.mk cs ∧ QString.toUtf8 (String.mk cs) = e := by
  obtain ⟨h1, h2⟩ := utf8DecodeAux_sound e.length e cs hvalid
  unfold QString.fromUtf8 QString.toUtf8
  rw [takeUntilNul_of_not_mem e hnul, dropUtf8Bom_of_not_starts e hbom, h2]
  exact ⟨rfl, h1⟩

/-! ## The request builders: the reader undoes the writer -/

theorem readsBackWith_string (s : QString) (need : Nat) (h : 1 ≤ need) :
    ReadsBackWith need (.string s) :=
  (readsBackWith_of_readsBack _ (readsBack_string s)).mono h

theorem readsBackWith_ofInt (v : Int) (need : Nat) (h : 1 ≤ need) :
    ReadsBackWith need (QJsonValue.ofInt v) :=
  (readsBackWith_of_readsBack _ (readsBack_ofInt v)).mono h

theorem createBindingRequest_eq (device : DeviceDescriptor) :
    createBindingRequest device
      = (QJsonDocument.ofObject (bindingRequestObject device.id)).toJson := by
  simp +decide [createBindingRequest, bindingRequestObject, QJsonObject.fromInitializerList,
    QJsonObject.insert, QJsonObject.insertSorted, QJsonValue.ofInt]

theorem fromJson_createBindingRequest (device : DeviceDescriptor) :
    QJsonDocument.fromJson (createBindingRequest device)
      = some (.ofObject (bindingRequestObject device.id)) := by
  have hall : ∀ x ∈ bindingRequestObject device.id, ReadsBackWith 1 x.2 := by
    intro x hx
    simp only [bindingRequestObject, List.mem_cons, List.mem_singleton, List.not_mem_nil,
      or_false] at hx
    rcases hx with rfl | rfl | rfl
    · exact readsBackWith_string _ 1 (Nat.le_refl 1)
    · exact readsBackWith_string _ 1 (Nat.le_refl 1)
    · exact readsBackWith_ofInt _ 1 (Nat.le_refl 1)
  have hlen : 1 + (bindingRequestObject device.id).length + 1
      ≤ (writeValue (.object (bindingRequestObject device.id))).length := by
    simp only [bindingRequestObject, writeValue, writeObjectContent, List.length_cons,
      List.length_append, List.length_nil]
    omega
  have hs : (bindingRequestObject device.id).foldl
      (fun o kv => QJsonObject.insertSorted o kv.1 kv.2) [] = bindingRequestObject device.id := by
    simp +decide [bindingRequestObject, QJsonObject.insertSorted]
  rw [createBindingRequest_eq,
    fromJson_toJson_object _ 1 hall (by simp [bindingRequestObject]) hlen, hs]

theorem createDeviceRequest_eq (encryptedPack : QByteArray) (i : Int) :
    createDeviceRequest encryptedPack i
      = (QJsonDocument.ofObject
          (deviceRequestObject (QString.fromUtf8 encryptedPack) i)).toJson := by
  simp +decide [createDeviceRequest, deviceRequestObject, QJsonObject.fromInitializerList,
    QJsonObject.insert, QJsonObject.insertSorted, QJsonValue.ofInt]

theorem fromJson_createDeviceRequest (encryptedPack : QByteArray) (i : Int) :
    QJsonDocument.fromJson (createDeviceRequest encryptedPack i)
      = some (.ofObject (deviceRequestObject (QString.fromUtf8 encryptedPack) i)) := by
  rw [createDeviceRequest_eq]
  generalize QString.fromUtf8 encryptedPack = pack
  have hall : ∀ x ∈ deviceRequestObject pack i, ReadsBackWith 1 x.2 := by
    intro x hx
    simp only [deviceRequestObject, List.mem_cons, List.mem_singleton, List.not_mem_nil,
      or_false] at hx
    rcases hx with rfl | rfl | rfl | rfl | rfl
    · exact readsBackWith_string _ 1 (Nat.le_refl 1)
    · exact readsBackWith_ofInt _ 1 (Nat.le_refl 1)
    · exact readsBackWith_string _ 1 (Nat.le_refl 1)
    · exact readsBackWith_string _ 1 (Nat.le_refl 1)
    · exact readsBackWith_ofInt _ 1 (Nat.le_refl 1)
  have hlen : 1 + (deviceRequestObject pack i).length + 1
      ≤ (writeValue (.object (deviceRequestObject pack i))).length := by
    simp only [deviceRequestObject, writeValue, writeObjectContent, List.length_cons,
      List.length_append, List.length_nil]
    omega
  have hs : (deviceRequestObject pack i).foldl
      (fun o kv => QJsonObject.insertSorted o kv.1 kv.2) [] = deviceRequestObject pack i := by
    simp +decide [deviceRequestObject, QJsonObject.insertSorted]
  rw [fromJson_toJson_object _ 1 hall (by simp [deviceRequestObject]) hlen, hs]

theorem createDeviceStatusRequestPack_eq (id : QString) :
    createDeviceStatusRequestPack id
      = (QJsonDocument.ofObject (statusRequestObject id)).toJson := by
  simp +decide [createDeviceStatusRequestPack, statusRequestObject, statusColumns,
    QJsonObject.fromInitializerList, QJsonObject.insert, QJsonObject.insertSorted]

theorem fromJson_createDeviceStatusRequestPack (id : QString) :
    QJsonDocument.fromJson (createDeviceStatusRequestPack id)
      = some (.ofObject (statusRequestObject id)) := by
  have hcols : ∀ x ∈ statusColumns.map QJsonValue.string, ReadsBack x := by
    intro x hx
    obtain ⟨s, _, rfl⟩ := List.mem_map.mp hx
    exact readsBack_string s
  have harr := readsBackWith_array (statusColumns.map QJsonValue.string) hcols
    (by simp [statusColumns])
  have hall : ∀ x ∈ statusRequestObject id, ReadsBackWith 21 x.2 := by
    intro x hx
    simp only [statusRequestObject, List.mem_cons, List.mem_singleton, List.not_mem_nil,
      or_false] at hx
    rcases hx with rfl | rfl | rfl
    · exact harr
    · exact readsBackWith_string _ 21 (by decide)
    · exact readsBackWith_string _ 21 (by decide)
  have hcl := length_writeArrayContent (statusColumns.map QJsonValue.string) hcols
  have h19 : (statusColumns.map QJsonValue.string).length = 19 := by decide
  have hlen : 21 + (statusRequestObject id).length + 1
      ≤ (writeValue (.object (statusRequestObject id))).length := by
    simp only [statusRequestObject, writeValue, writeObjectContent, List.length_cons,
      List.length_append, List.length_nil]
    omega
  have hs : (statusRequestObject id).foldl
      (fun o kv => QJsonObject.insertSorted o kv.1 kv.2) [] = statusRequestObject id := by
    simp +decide [statusRequestObject, QJsonObject.insertSorted]
  rw [createDeviceStatusRequestPack_eq,
    fromJson_toJson_object _ 21 hall (by simp [statusRequestObject]) hlen, hs]

theorem createBindingRequest_text (d : DeviceDescriptor) : createBindingRequest d
      = utf8Encode ("\x7b\"mac\":".data ++ writeValue (.string d.id)
          ++ ",\"t\":\"bind\",\"uid\":0\x7d".data) := by
  rw [createBindingRequest_eq]
  unfold QJsonDocument.toJson
  dsimp only
  congr 1
  have hs : escapedString "mac" = "mac".data ∧ escapedString "t" = "t".data
      ∧ escapedString "uid" = "uid".data := by decide
  have h0 : writeValue (QJsonValue.ofInt 0) = "0".data := by decide
  have hb : writeValue (QJsonValue.string "bind") = "\"bind\"".data := by decide
  simp only [bindingRequestObject]
  conv_lhs => rw [writeValue]
  simp only [writeObjectContent, hs.1, hs.2.1, hs.2.2, h0, hb]
  simp

theorem createDeviceRequest_text (e : QByteArray) (i : Int) : createDeviceRequest e i
      = utf8Encode ("\x7b\"cid\":\"app\",\"i\":".data ++ intText i ++ ",\"pack\":".data
          ++ writeValue (.string (QString.fromUtf8 e))
          ++ ",\"t\":\"pack\",\"uid\":0\x7d".data) := by
  rw [createDeviceRequest_eq]
  unfold QJsonDocument.toJson
  dsimp only
  congr 1
  have hs : escapedString "cid" = "cid".data ∧ escapedString "i" = "i".data
      ∧ escapedString "pack" = "pack".data ∧ escapedString "t" = "t".data
      ∧ escapedString "uid" = "uid".data := by decide
  have h0 : writeValue (QJsonValue.ofInt 0) = "0".data := by decide
  have ha : writeValue (QJsonValue.string "app") = "\"app\"".data := by decide
  have hp : writeValue (QJsonValue.string "pack") = "\"pack\"".data := by decide
  simp only [deviceRequestObject]
  conv_lhs => rw [writeValue]
  simp only [writeObjectContent, hs.1, hs.2.1, hs.2.2.1, hs.2.2.2.1, hs.2.2.2.2, h0, ha, hp,
    writeValue_ofInt]
  simp

set_option maxRecDepth 100000 in
theorem createDeviceStatusRequestPack_text (id : QString) :
    createDeviceStatusRequestPack id
      = utf8Encode ("\x7b\"cols\":[\"Pow\",\"Mod\",\"SetTem\",\"WdSpd\",\"Air\",\"Blo\",\"Health\",\"SwhSlp\",\"Lig\",\"SwingLfRig\",\"SwUpDn\",\"Quiet\",\"Tur\",\"StHt\",\"TemUn\",\"HeatCoolType\",\"TemRec\",\"SvSt\",\"NoiseSet\"],\"mac\":".data
          ++ writeValue (.string id) ++ ",\"t\":\"status\"\x7d".data) := by
  rw [createDeviceStatusRequestPack_eq]
  unfold QJsonDocument.toJson
  dsimp only
  congr 1
  have hs : escapedString "cols" = "cols".data ∧ escapedString "mac" = "mac".data
      ∧ escapedString "t" = "t".data := by decide
  have hc : writeValue (QJsonValue.array (statusColumns.map QJsonValue.string))
      = "[\"Pow\",\"Mod\",\"SetTem\",\"WdSpd\",\"Air\",\"Blo\",\"Health\",\"SwhSlp\",\"Lig\",\"SwingLfRig\",\"SwUpDn\",\"Quiet\",\"Tur\",\"StHt\",\"TemUn\",\"HeatCoolType\",\"TemRec\",\"SvSt\",\"NoiseSet\"]".data := by
    decide
  have ht : writeValue (QJsonValue.string "status") = "\"status\"".data := by decide
  simp only [statusRequestObject]
  conv_lhs => rw [writeValue]
  simp only [writeObjectContent, hs.1, hs.2.1, hs.2.2, hc, ht]
  simp

theorem utf8Encode_ne_nil (c : Char) (cs : List Char) : utf8Encode (c :: cs) ≠ [] := by
  obtain ⟨b, bs, hb⟩ := utf8EncodeChar_cons c.toNat
  simp [utf8Encode, hb]

/-! ## The claims about the request builders -/

set_option maxRecDepth 100000 in
/-- C11: for every device id `s`, `createDeviceStatusRequestPack s` is the compact text of the
object with exactly the members `cols`, `mac` and `t`: it parses to that object, `mac` is `s`,
`t` is `status`, and `cols` is the array of the 19 catalog names Pow, Mod, SetTem, WdSpd, Air,
Blo, Health, SwhSlp, Lig, SwingLfRig, SwUpDn, Quiet, Tur, StHt, TemUn, HeatCoolType, TemRec,
SvSt, NoiseSet in this order, whatever `s` is; the text for `AA:BB:CC:DD:EE:FF` is spelled
out. -/
theorem createDeviceStatusRequestPack_shape (s : QString) :
    QJsonDocument.fromJson (createDeviceStatusRequestPack s)
      = some (.ofObject
          [("cols", .array (statusColumns.map QJsonValue.string)), ("mac", .string s),
           ("t", .string "status")])
    ∧ statusColumns
      = ["Pow", "Mod", "SetTem", "WdSpd", "Air", "Blo", "Health", "SwhSlp", "Lig", "SwingLfRig",
         "SwUpDn", "Quiet", "Tur", "StHt", "TemUn", "HeatCoolType", "TemRec", "SvSt", "NoiseSet"]
    ∧ statusColumns.length = 19
    ∧ createDeviceStatusRequestPack s
      = utf8Encode ("\x7b\"cols\":[\"Pow\",\"Mod\",\"SetTem\",\"WdSpd\",\"Air\",\"Blo\",\"Health\",\"SwhSlp\",\"Lig\",\"SwingLfRig\",\"SwUpDn\",\"Quiet\",\"Tur\",\"StHt\",\"TemUn\",\"HeatCoolType\",\"TemRec\",\"SvSt\",\"NoiseSet\"],\"mac\":".data
          ++ writeValue (.string s) ++ ",\"t\":\"status\"\x7d".data)
    ∧ createDeviceStatusRequestPack "AA:BB:CC:DD:EE:FF"
      = QString.toUtf8 "\x7b\"cols\":[\"Pow\",\"Mod\",\"SetTem\",\"WdSpd\",\"Air\",\"Blo\",\"Health\",\"SwhSlp\",\"Lig\",\"SwingLfRig\",\"SwUpDn\",\"Quiet\",\"Tur\",\"StHt\",\"TemUn\",\"HeatCoolType\",\"TemRec\",\"SvSt\",\"NoiseSet\"],\"mac\":\"AA:BB:CC:DD:EE:FF\",\"t\":\"status\"\x7d" :=
  ⟨fromJson_createDeviceStatusRequestPack s, rfl, rfl, createDeviceStatusRequestPack_text s,
    by decide⟩

/-- C12: for every device descriptor `d`, `createBindingRequest d` is the compact text of the
object with exactly the members `mac`, `t` and `uid`: it parses to that object, `mac` is `d.id`
as it is, `t` is `bind`, `uid` is the number 0; for the id `AABBCC` the text is
`{"mac":"AABBCC","t":"bind","uid":0}`. -/
theorem createBindingRequest_shape (d : DeviceDescriptor) :
    QJsonDocument.fromJson (createBindingRequest d)
      = some (.ofObject
          [("mac", .string d.id), ("t", .string "bind"), ("uid", QJsonValue.ofInt 0)])
    ∧ createBindingRequest d
      = utf8Encode ("\x7b\"mac\":".data ++ writeValue (.string d.id)
          ++ ",\"t\":\"bind\",\"uid\":0\x7d".data)
    ∧ createBindingRequest { id := "AABBCC" }
      = QString.toUtf8 "\x7b\"mac\":\"AABBCC\",\"t\":\"bind\",\"uid\":0\x7d" :=
  ⟨fromJson_createBindingRequest d, createBindingRequest_text d, by decide⟩

/-- C13, as stated, fails: the bytes `EF BB BF 41` are valid UTF-8 (U+FEFF, then `A`), but the
`pack` member of the envelope is the text `A`, whose bytes are not the input: the byte order
mark is gone. -/
theorem createDeviceRequest_bom_counterexample :
    utf8Decode [0xEF, 0xBB, 0xBF, 0x41] = some [Char.ofNat 0xFEFF, 'A']
    ∧ ∃ doc, QJsonDocument.fromJson (createDeviceRequest [0xEF, 0xBB, 0xBF, 0x41] 1) = some doc
        ∧ (doc.object.value "pack").toString = "A"
        ∧ QString.toUtf8 (doc.object.value "pack").toString ≠ [0xEF, 0xBB, 0xBF, 0x41] := by
  refine ⟨by decide, _, fromJson_createDeviceRequest _ 1, ?_, ?_⟩
  · decide
  · decide

/-- The same holds for a NUL byte inside valid UTF-8: of the bytes `41 00 42` only the text
`A` reaches the `pack` member. -/
theorem createDeviceRequest_nul_example :
    utf8Decode [0x41, 0x00, 0x42] = some ['A', Char.ofNat 0, 'B']
    ∧ QJsonDocument.fromJson (createDeviceRequest [0x41, 0x00, 0x42] 1)
      = some (.ofObject (deviceRequestObject "A" 1)) := by
  refine ⟨by decide, ?_⟩
  rw [fromJson_createDeviceRequest]
  rfl

/-- C13, amended: for every byte sequence `e` that is valid UTF-8, holds no NUL byte and does
not start with a byte order mark, and for every `i`, `createDeviceRequest e i` is the compact
text of the object with exactly the members `cid = "app"`, `i = i`, `pack`, `t = "pack"` and
`uid = 0`, where `pack` is the text of `e`: parsing the result and reading `pack` gives back
`e`. -/
theorem createDeviceRequest_round_trip (e : QByteArray) (i : Int) (cs : List Char)
    (hvalid : utf8Decode e = some cs) (hnul : 0 ∉ e) (hbom : startsWithBom e = false) :
    QJsonDocument.fromJson (createDeviceRequest e i)
      = some (.ofObject
          [("cid", .string "app"), ("i", QJsonValue.ofInt i), ("pack", .string (String.mk cs)),
           ("t", .string "pack"), ("uid", QJsonValue.ofInt 0)])
    ∧ createDeviceRequest e i
      = utf8Encode ("\x7b\"cid\":\"app\",\"i\":".data ++ intText i ++ ",\"pack\":".data
          ++ writeValue (.string (String.mk cs)) ++ ",\"t\":\"pack\",\"uid\":0\x7d".data)
    ∧ QString.toUtf8 (String.mk cs) = e := by
  obtain ⟨h1, h2⟩ := fromUtf8_of_valid e cs hvalid hnul hbom
  refine ⟨?_, ?_, h2⟩
  · rw [fromJson_createDeviceRequest, h1]; rfl
  · rw [createDeviceRequest_text, h1]

theorem createDeviceRequest_round_trip_witness :
    QJsonDocument.fromJson (createDeviceRequest [0x51, 0x55, 0x4A, 0x44] 7)
      = some (.ofObject
          [("cid", .string "app"), ("i", QJsonValue.ofInt 7), ("pack", .string "QUJD"),
           ("t", .string "pack"), ("uid", QJsonValue.ofInt 0)])
    ∧ createDeviceRequest [0x51, 0x55, 0x4A, 0x44] 7
      = utf8Encode ("\x7b\"cid\":\"app\",\"i\":".data ++ intText 7 ++ ",\"pack\":".data
          ++ writeValue (.string "QUJD") ++ ",\"t\":\"pack\",\"uid\":0\x7d".data)
    ∧ QString.toUtf8 "QUJD" = [0x51, 0x55, 0x4A, 0x44] :=
  createDeviceRequest_round_trip [0x51, 0x55, 0x4A, 0x44] 7 ['Q', 'U', 'J', 'D'] (by decide)
    (by decide) (by decide)

/-- C14, as stated, fails: the byte `FF` is not valid UTF-8, yet `createDeviceRequest` returns
an envelope for it: the text `{"cid":"app","i":1,"pack":"?","t":"pack","uid":0}` with U+FFFD
in the place of `?`, which parses to the object with the five members. -/
theorem createDeviceRequest_invalid_utf8_counterexample :
    utf8Decode [0xFF] = none
    ∧ createDeviceRequest [0xFF] 1
      = QString.toUtf8 "\x7b\"cid\":\"app\",\"i\":1,\"pack\":\"\uFFFD\",\"t\":\"pack\",\"uid\":0\x7d"
    ∧ QJsonDocument.fromJson (createDeviceRequest [0xFF] 1)
      = some (.ofObject
          [("cid", .string "app"), ("i", QJsonValue.ofInt 1), ("pack", .string "\uFFFD"),
           ("t", .string "pack"), ("uid", QJsonValue.ofInt 0)]) := by
  refine ⟨by decide, by decide, ?_⟩
  rw [fromJson_createDeviceRequest]
  have h : QString.fromUtf8 [0xFF] = "\uFFFD" := by decide
  rw [h]
  rfl

/-- C14, amended: `createDeviceRequest` has no failure.  For every byte sequence `e`, valid
UTF-8 or not, and every `i` it returns a non-empty byte sequence, the compact text
`{"cid":"app","i":<i>,"pack":<p>,"t":"pack","uid":0}` with `<i>` the decimal text of `i` and
`<p>` the JSON string of `p`; the text parses to the object with exactly the members
`cid = "app"`, `i = i`, `pack = p`, `t = "pack"` and `uid = 0`.  Here `p` is
`QString::fromUtf8(e)`: the bytes of `e` before its first NUL byte, without a byte order mark
at their start, decoded leniently (U+FFFD for every byte that starts no well-formed
sequence). -/
theorem createDeviceRequest_total (e : QByteArray) (i : Int) :
    createDeviceRequest e i ≠ []
    ∧ createDeviceRequest e i
      = utf8Encode ("\x7b\"cid\":\"app\",\"i\":".data ++ intText i ++ ",\"pack\":".data
          ++ writeValue (.string (QString.fromUtf8 e))
          ++ ",\"t\":\"pack\",\"uid\":0\x7d".data)
    ∧ QJsonDocument.fromJson (createDeviceRequest e i)
      = some (.ofObject
          [("cid", .string "app"), ("i", QJsonValue.ofInt i),
           ("pack", .string (QString.fromUtf8 e)), ("t", .string "pack"),
           ("uid", QJsonValue.ofInt 0)])
    ∧ QString.fromUtf8 e
      = String.mk (utf8DecodeLenientAux (dropUtf8Bom (takeUntilNul e)).length
          (dropUtf8Bom (takeUntilNul e))) := by
  refine ⟨?_, createDeviceRequest_text e i, fromJson_createDeviceRequest e i, rfl⟩
  rw [createDeviceRequest_text]
  exact utf8Encode_ne_nil _ _

/-! ## Properties of `readPackFromResponse` -/

theorem QString.isEmpty_iff (s : QString) : QString.isEmpty s = true ↔ s = "" := by
  obtain ⟨l⟩ := s
  cases l with
  | nil => simp [QString.isEmpty]
  | cons c cs =>
    simp only [QString.isEmpty, List.isEmpty_cons, Bool.false_eq_true, false_iff]
    intro h
    exact absurd (congrArg String.data h) (by simp)

theorem toString_eq_empty_of_not_string (v : QJsonValue) (h : ∀ s, v ≠ .string s) :
    v.toString = "" := by
  cases v <;> first | rfl | exact absurd rfl (h _)

/-- The outcome of `readPackFromResponse` on each of its four paths. -/
theorem readPackFromResponse_cases (decryptPack : QByteArray → QString → QByteArray)
    (response : QByteArray) (key : QString) (pack : QJsonObject) :
    (QJsonDocument.fromJson response = none
      ∧ readPackFromResponse decryptPack response key pack
        = { result := false, pack := pack, failure := some .malformedEnvelope,
            decryptCalls := [] })
    ∨ (∃ doc, QJsonDocument.fromJson response = some doc
      ∧ (doc.object.value "pack").toString = ""
      ∧ readPackFromResponse decryptPack response key pack
        = { result := false, pack := pack, failure := some .missingPackField,
            decryptCalls := [] })
    ∨ (∃ doc, QJsonDocument.fromJson response = some doc
      ∧ (doc.object.value "pack").toString ≠ ""
      ∧ QJsonDocument.fromJson
          (decryptPack (QString.toUtf8 (doc.object.value "pack").toString) key) = none
      ∧ readPackFromResponse decryptPack response key pack
        = { result := false, pack := pack, failure := some .malformedPack,
            decryptCalls := [(QString.toUtf8 (doc.object.value "pack").toString, key)] })
    ∨ (∃ doc doc2, QJsonDocument.fromJson response = some doc
      ∧ (doc.object.value "pack").toString ≠ ""
      ∧ QJsonDocument.fromJson
          (decryptPack (QString.toUtf8 (doc.object.value "pack").toString) key) = some doc2
      ∧ readPackFromResponse decryptPack response key pack
        = { result := true, pack := doc2.object, failure := none,
            decryptCalls := [(QString.toUtf8 (doc.object.value "pack").toString, key)] }) := by
  unfold readPackFromResponse
  cases h1 : QJsonDocument.fromJson response with
  | none => exact Or.inl ⟨rfl, rfl⟩
  | some doc =>
    dsimp only
    by_cases h2 : (doc.object.value "pack").toString = ""
    · refine Or.inr (Or.inl ⟨doc, rfl, h2, ?_⟩)
      rw [if_pos ((QString.isEmpty_iff _).mpr h2)]
    · have h2b : ¬ QString.isEmpty (doc.object.value "pack").toString = true :=
        fun h => h2 ((QString.isEmpty_iff _).mp h)
      rw [if_neg h2b]
      cases h3 : QJsonDocument.fromJson
          (decryptPack (QString.toUtf8 (doc.object.value "pack").toString) key) with
      | none => exact Or.inr (Or.inr (Or.inl ⟨doc, rfl, h2, h3, rfl⟩))
      | some doc2 => exact Or.inr (Or.inr (Or.inr ⟨doc, doc2, rfl, h2, h3, rfl⟩))

theorem toString_ne_empty (v : QJsonValue) (h : v.toString ≠ "") :
    ∃ p, v = .string p ∧ p ≠ "" := by
  cases v <;> first | exact absurd rfl h | exact ⟨_, rfl, h⟩

/-! ## The claims about `readPackFromResponse` -/

/-- C15: for a response that is valid JSON but has no `pack` member, or an empty string, or a
value that is no string under `pack`, `readPackFromResponse` fails at the missing-pack check,
for every decryption function and every key, and `Crypto::decryptPack` is not called. -/
theorem readPackFromResponse_missing_pack (decryptPack : QByteArray → QString → QByteArray)
    (response : QByteArray) (key : QString) (pack : QJsonObject) (doc : QJsonDocument)
    (hjson : QJsonDocument.fromJson response = some doc)
    (hpack : "pack" ∉ doc.object.map Prod.fst ∨ doc.object.value "pack" = .string ""
      ∨ ∀ s, doc.object.value "pack" ≠ .string s) :
    (readPackFromResponse decryptPack response key pack).result = false
    ∧ (readPackFromResponse decryptPack response key pack).failure = some .missingPackField
    ∧ (readPackFromResponse decryptPack response key pack).decryptCalls = [] := by
  have hs : (doc.object.value "pack").toString = "" := by
    rcases hpack with h | h | h
    · rw [value_absent _ _ h]; rfl
    · rw [h]; rfl
    · exact toString_eq_empty_of_not_string _ h
  rcases readPackFromResponse_cases decryptPack response key pack with
    ⟨h1, _⟩ | ⟨d, h1, _, h3⟩ | ⟨d, h1, h2, _⟩ | ⟨d, _, h1, h2, _⟩
  · rw [hjson] at h1; exact absurd h1 (by simp)
  · rw [h3]; exact ⟨rfl, rfl, rfl⟩
  · rw [hjson] at h1
    simp only [Option.some.injEq] at h1
    subst h1
    exact absurd hs h2
  · rw [hjson] at h1
    simp only [Option.some.injEq] at h1
    subst h1
    exact absurd hs h2

theorem readPackFromResponse_missing_pack_witness :
    (readPackFromResponse (fun bytes _ => bytes) (QString.toUtf8 "\x7b\"t\":\"pack\"\x7d") "key"
        []).result = false
    ∧ (readPackFromResponse (fun bytes _ => bytes) (QString.toUtf8 "\x7b\"t\":\"pack\"\x7d") "key"
        []).failure = some .missingPackField
    ∧ (readPackFromResponse (fun bytes _ => bytes) (QString.toUtf8 "\x7b\"t\":\"pack\"\x7d") "key"
        []).decryptCalls = [] :=
  readPackFromResponse_missing_pack (fun bytes _ => bytes)
    (QString.toUtf8 "\x7b\"t\":\"pack\"\x7d") "key" [] (.ofObject [("t", .string "pack")]) rfl
    (Or.inl (by decide))

/-- C16: for a response with a non-empty string `p` under `pack` and a key for which the
decryption returns bytes that are not valid JSON text, `readPackFromResponse` fails at the
check of the decrypted pack, after one call of `Crypto::decryptPack` with the bytes of `p` and
the key. -/
theorem readPackFromResponse_malformed_pack (decryptPack : QByteArray → QString → QByteArray)
    (response : QByteArray) (key : QString) (pack : QJsonObject) (doc : QJsonDocument)
    (p : QString)
    (hjson : QJsonDocument.fromJson response = some doc)
    (hp : doc.object.value "pack" = .string p) (hne : p ≠ "")
    (hbad : QJsonDocument.fromJson (decryptPack (QString.toUtf8 p) key) = none) :
    (readPackFromResponse decryptPack response key pack).result = false
    ∧ (readPackFromResponse decryptPack response key pack).failure = some .malformedPack
    ∧ (readPackFromResponse decryptPack response key pack).decryptCalls
        = [(QString.toUtf8 p, key)] := by
  have hs : (doc.object.value "pack").toString = p := by rw [hp]; rfl
  rcases readPackFromResponse_cases decryptPack response key pack with
    ⟨h1, _⟩ | ⟨d, h1, h2, _⟩ | ⟨d, h1, _, _, h3⟩ | ⟨d, d2, h1, _, h2, _⟩
  · rw [hjson] at h1; exact absurd h1 (by simp)
  · rw [hjson] at h1
    simp only [Option.some.injEq] at h1
    subst h1
    rw [hs] at h2
    exact absurd h2 hne
  · rw [hjson] at h1
    simp only [Option.some.injEq] at h1
    subst h1
    rw [hs] at h3
    rw [h3]; exact ⟨rfl, rfl, rfl⟩
  · rw [hjson] at h1
    simp only [Option.some.injEq] at h1
    subst h1
    rw [hs, hbad] at h2
    exact absurd h2 (by simp)

theorem readPackFromResponse_malformed_pack_witness :
    (readPackFromResponse (fun bytes _ => bytes) (QString.toUtf8 "\x7b\"pack\":\"x\"\x7d") "key"
        []).result = false
    ∧ (readPackFromResponse (fun bytes _ => bytes) (QString.toUtf8 "\x7b\"pack\":\"x\"\x7d") "key"
        []).failure = some .malformedPack
    ∧ (readPackFromResponse (fun bytes _ => bytes) (QString.toUtf8 "\x7b\"pack\":\"x\"\x7d") "key"
        []).decryptCalls = [(QString.toUtf8 "x", "key")] :=
  readPackFromResponse_malformed_pack (fun bytes _ => bytes)
    (QString.toUtf8 "\x7b\"pack\":\"x\"\x7d") "key" [] (.ofObject [("pack", .string "x")]) "x"
    rfl rfl (by decide) rfl

/-- C17: with `Crypto::decryptPack` an arbitrary function, `readPackFromResponse` succeeds if
and only if the response is valid JSON text, its `pack` member is a non-empty string `p`, and
the decryption of the bytes of `p` under the key is valid JSON text; on success the caller's
pack is the object of the document parsed from the decrypted bytes, whatever its members are;
a response that is not valid JSON fails at the first check. -/
theorem readPackFromResponse_spec (decryptPack : QByteArray → QString → QByteArray)
    (response : QByteArray) (key : QString) (pack : QJsonObject) :
    ((readPackFromResponse decryptPack response key pack).result = true
      ↔ ∃ doc p, QJsonDocument.fromJson response = some doc
          ∧ doc.object.value "pack" = .string p ∧ p ≠ ""
          ∧ (QJsonDocument.fromJson (decryptPack (QString.toUtf8 p) key)).isSome = true)
    ∧ (∀ doc p doc2, QJsonDocument.fromJson response = some doc
          → doc.object.value "pack" = .string p → p ≠ ""
          → QJsonDocument.fromJson (decryptPack (QString.toUtf8 p) key) = some doc2
          → (readPackFromResponse decryptPack response key pack).result = true
            ∧ (readPackFromResponse decryptPack response key pack).pack = doc2.object)
    ∧ (QJsonDocument.fromJson response = none
          → (readPackFromResponse decryptPack response key pack).result = false
            ∧ (readPackFromResponse decryptPack response key pack).failure
                = some .malformedEnvelope) := by
  refine ⟨⟨?_, ?_⟩, ?_, ?_⟩
  · intro hres
    rcases readPackFromResponse_cases decryptPack response key pack with
      ⟨_, h⟩ | ⟨d, _, _, h⟩ | ⟨d, _, _, _, h⟩ | ⟨d, d2, h1, h2, h3, _⟩
    · rw [h] at hres; exact absurd hres (by simp)
    · rw [h] at hres; exact absurd hres (by simp)
    · rw [h] at hres; exact absurd hres (by simp)
    · obtain ⟨p, hp, hne⟩ := toString_ne_empty _ h2
      have hs : (d.object.value "pack").toString = p := by rw [hp]; rfl
      rw [hs] at h3
      exact ⟨d, p, h1, hp, hne, by rw [h3]; rfl⟩
  · rintro ⟨doc, p, hjson, hp, hne, hok⟩
    have hs : (doc.object.value "pack").toString = p := by rw [hp]; rfl
    rcases readPackFromResponse_cases decryptPack response key pack with
      ⟨h1, _⟩ | ⟨d, h1, h2, _⟩ | ⟨d, h1, _, h2, _⟩ | ⟨d, d2, _, _, _, h⟩
    · rw [hjson] at h1; exact absurd h1 (by simp)
    · rw [hjson] at h1
      simp only [Option.some.injEq] at h1
      subst h1
      rw [hs] at h2
      exact absurd h2 hne
    · rw [hjson] at h1
      simp only [Option.some.injEq] at h1
      subst h1
      rw [hs] at h2
      rw [h2] at hok
      exact absurd hok (by simp)
    · rw [h]
  · intro doc p doc2 hjson hp hne hdec
    have hs : (doc.object.value "pack").toString = p := by rw [hp]; rfl
    rcases readPackFromResponse_cases decryptPack response key pack with
      ⟨h1, _⟩ | ⟨d, h1, h2, _⟩ | ⟨d, h1, _, h2, _⟩ | ⟨d, d2, h1, _, h2, h⟩
    · rw [hjson] at h1; exact absurd h1 (by simp)
    · rw [hjson] at h1
      simp only [Option.some.injEq] at h1
      subst h1
      rw [hs] at h2
      exact absurd h2 hne
    · rw [hjson] at h1
      simp only [Option.some.injEq] at h1
      subst h1
      rw [hs, hdec] at h2
      exact absurd h2 (by simp)
    · rw [hjson] at h1
      simp only [Option.some.injEq] at h1
      subst h1
      rw [hs, hdec] at h2
      simp only [Option.some.injEq] at h2
      subst h2
      rw [h]
      exact ⟨rfl, rfl⟩
  · intro hbad
    rcases readPackFromResponse_cases decryptPack response key pack with
      ⟨_, h⟩ | ⟨d, h1, _⟩ | ⟨d, h1, _⟩ | ⟨d, d2, h1, _⟩
    · rw [h]; exact ⟨rfl, rfl⟩
    · rw [hbad] at h1; exact absurd h1 (by simp)
    · rw [hbad] at h1; exact absurd h1 (by simp)
    · rw [hbad] at h1; exact absurd h1 (by simp)

/-- C19: whenever `readPackFromResponse` returns `false`, on any of its three failure paths,
the caller's pack object is what it was before the call; it is assigned only when the function
returns `true`, and then with the object parsed from the decrypted bytes. -/
theorem readPackFromResponse_failure_keeps_pack
    (decryptPack : QByteArray → QString → QByteArray) (response : QByteArray) (key : QString)
    (pack : QJsonObject)
    (hfail : (readPackFromResponse decryptPack response key pack).result = false) :
    (readPackFromResponse decryptPack response key pack).pack = pack
    ∧ (readPackFromResponse decryptPack response key pack).failure ≠ none := by
  rcases readPackFromResponse_cases decryptPack response key pack with
    ⟨_, h⟩ | ⟨d, _, _, h⟩ | ⟨d, _, _, _, h⟩ | ⟨d, d2, _, _, _, h⟩
  · rw [h]; exact ⟨rfl, by simp⟩
  · rw [h]; exact ⟨rfl, by simp⟩
  · rw [h]; exact ⟨rfl, by simp⟩
  · rw [h] at hfail; exact absurd hfail (by simp)

theorem readPackFromResponse_failure_keeps_pack_witness :
    (readPackFromResponse (fun bytes _ => bytes) (QString.toUtf8 "\x7b\"pack\":\"x\"\x7d") "key"
        [("t", .string "dat")]).pack = [("t", .string "dat")]
    ∧ (readPackFromResponse (fun bytes _ => bytes) (QString.toUtf8 "\x7b\"pack\":\"x\"\x7d") "key"
        [("t", .string "dat")]).failure ≠ none :=
  readPackFromResponse_failure_keeps_pack (fun bytes _ => bytes)
    (QString.toUtf8 "\x7b\"pack\":\"x\"\x7d") "key" [("t", .string "dat")] (by decide)

/-! ## More on the loop of `readStatusMapFromPack` -/

theorem DeviceParameterMap.length_assign (m : DeviceParameterMap) (k : QString) (v : Int) :
    1 ≤ (DeviceParameterMap.assign m k v).length
    ∧ (DeviceParameterMap.assign m k v).length ≤ m.length + 1 := by
  induction m with
  | nil => simp [DeviceParameterMap.assign]
  | cons e rest ih =>
    obtain ⟨a, b⟩ := e
    by_cases hak : a = k
    · simp [DeviceParameterMap.assign, hak]
    · simp only [DeviceParameterMap.assign, hak, if_false, List.length_cons]
      omega

theorem statusLoop_length (ks vs : QJsonArray) (n : Nat) (hn : 1 ≤ n) :
    1 ≤ (statusLoop ks vs n).length ∧ (statusLoop ks vs n).length ≤ n := by
  induction n with
  | zero => omega
  | succ n ih =>
    rw [statusLoop_succ]
    have h := DeviceParameterMap.length_assign (statusLoop ks vs n) (ks.index n).toString
      (vs.index n).toInt
    refine ⟨h.1, ?_⟩
    by_cases h0 : n = 0
    · subst h0
      rw [statusLoop_zero] at h
      simpa using h.2
    · have := (ih (by omega)).2
      omega

theorem isArray_eq_array (v : QJsonValue) (h : v.isArray = true) : v = .array v.toArray := by
  cases v <;> first | rfl | exact absurd h (by simp [QJsonValue.isArray])

theorem readStatusMapFromPack_rejects (pack : QJsonObject)
    (h : pack.value "t" ≠ .string "dat" ∨ (pack.value "cols").isArray = false
      ∨ (pack.value "cols").toArray = [] ∨ (pack.value "dat").isArray = false
      ∨ (pack.value "dat").toArray = []
      ∨ (pack.value "cols").toArray.length ≠ (pack.value "dat").toArray.length) :
    readStatusMapFromPack pack = [] := by
  unfold readStatusMapFromPack
  dsimp only
  split_ifs with h1 h2 h3 h4 h5 h6
  · rfl
  · rfl
  · rfl
  · rfl
  · rfl
  · rfl
  · exfalso
    rcases h with h | h | h | h | h | h
    · apply h
      apply (QJsonValue.equals_string_iff _ _).mp
      simpa using h1
    · rw [h] at h2; exact h2 rfl
    · rw [h] at h3; exact h3 rfl
    · rw [h] at h4; exact h4 rfl
    · rw [h] at h5; exact h5 rfl
    · exact h (by simpa using h6)

theorem readStatusMapFromPack_passes (pack : QJsonObject)
    (h : ¬ (pack.value "t" ≠ .string "dat" ∨ (pack.value "cols").isArray = false
      ∨ (pack.value "cols").toArray = [] ∨ (pack.value "dat").isArray = false
      ∨ (pack.value "dat").toArray = []
      ∨ (pack.value "cols").toArray.length ≠ (pack.value "dat").toArray.length)) :
    readStatusMapFromPack pack
      = statusLoop (pack.value "cols").toArray (pack.value "dat").toArray
          (pack.value "cols").toArray.length
    ∧ 1 ≤ (pack.value "cols").toArray.length := by
  simp only [not_or, ne_eq, not_not, Bool.not_eq_false] at h
  obtain ⟨ht, hc, hcne, hd, _, hlen⟩ := h
  refine ⟨readStatusMapFromPack_accepts pack _ _ ht (isArray_eq_array _ hc)
    (isArray_eq_array _ hd) hcne hlen, ?_⟩
  exact List.length_pos.mpr hcne

theorem statusLoop_distinct (ks vs : QJsonArray)
    (hnd : (ks.map QJsonValue.toString).Nodup) (hlen : ks.length = vs.length) :
    ∀ n, n ≤ ks.length →
      statusLoop ks vs n
        = (List.zip (ks.map QJsonValue.toString) (vs.map QJsonValue.toInt)).take n := by
  intro n
  induction n with
  | zero => intro _; simp [statusLoop_zero]
  | succ n ih =>
    intro hn
    have hlt : n < ks.length := hn
    have hlt2 : n < vs.length := by omega
    have hzl : n < (List.zip (ks.map QJsonValue.toString) (vs.map QJsonValue.toInt)).length := by
      simp [List.length_zip]; omega
    have hk : (ks.index n).toString = (ks[n]).toString := by
      simp [QJsonArray.index, List.getD_eq_getElem?_getD, hlt]
    have hv : (vs.index n).toInt = (vs[n]).toInt := by
      simp [QJsonArray.index, List.getD_eq_getElem?_getD, hlt2]
    have hfresh : (ks[n]).toString ∉ DeviceParameterMap.keys
        ((List.zip (ks.map QJsonValue.toString) (vs.map QJsonValue.toInt)).take n) := by
      have hkeys : DeviceParameterMap.keys
          ((List.zip (ks.map QJsonValue.toString) (vs.map QJsonValue.toInt)).take n)
          = (ks.map QJsonValue.toString).take n := by
        simp only [DeviceParameterMap.keys, List.map_take]
        rw [List.map_fst_zip]
        simp only [List.length_map]; omega
      rw [hkeys]
      have hsplit : ks.map QJsonValue.toString
          = (ks.map QJsonValue.toString).take n ++ (ks[n]).toString
              :: (ks.map QJsonValue.toString).drop (n + 1) := by
        have hl : n < (ks.map QJsonValue.toString).length := by simpa using hlt
        have := List.drop_eq_getElem_cons hl
        rw [List.getElem_map] at this
        rw [← this, List.take_append_drop]
      rw [hsplit] at hnd
      have h2 := List.nodup_middle.mp hnd
      rw [List.nodup_cons] at h2
      intro hmem
      exact h2.1 (List.mem_append_left _ hmem)
    rw [statusLoop_succ, ih (Nat.le_of_lt hlt), hk, hv,
      DeviceParameterMap.assign_fresh _ _ _ hfresh, List.take_succ,
      List.getElem?_eq_getElem hzl]
    simp [List.getElem_zip]

/-! ## The claims about rejection and about the status column catalog -/

/-- C18: `readStatusMapFromPack` returns the empty map if and only if one of its six checks
fails (`t` is not `dat`, `cols` is no array, `cols` is empty, `dat` is no array, `dat` is
empty, the lengths differ); a pack that passes all six gives a map with at least one entry and
at most `cols.length` entries. -/
theorem readStatusMapFromPack_empty_iff (pack : QJsonObject) :
    (readStatusMapFromPack pack = []
      ↔ (pack.value "t" ≠ .string "dat" ∨ (pack.value "cols").isArray = false
        ∨ (pack.value "cols").toArray = [] ∨ (pack.value "dat").isArray = false
        ∨ (pack.value "dat").toArray = []
        ∨ (pack.value "cols").toArray.length ≠ (pack.value "dat").toArray.length))
    ∧ (¬ (pack.value "t" ≠ .string "dat" ∨ (pack.value "cols").isArray = false
        ∨ (pack.value "cols").toArray = [] ∨ (pack.value "dat").isArray = false
        ∨ (pack.value "dat").toArray = []
        ∨ (pack.value "cols").toArray.length ≠ (pack.value "dat").toArray.length)
      → 1 ≤ (readStatusMapFromPack pack).length
        ∧ (readStatusMapFromPack pack).length ≤ (pack.value "cols").toArray.length) := by
  have hpass : ¬ (pack.value "t" ≠ .string "dat" ∨ (pack.value "cols").isArray = false
        ∨ (pack.value "cols").toArray = [] ∨ (pack.value "dat").isArray = false
        ∨ (pack.value "dat").toArray = []
        ∨ (pack.value "cols").toArray.length ≠ (pack.value "dat").toArray.length)
      → 1 ≤ (readStatusMapFromPack pack).length
        ∧ (readStatusMapFromPack pack).length ≤ (pack.value "cols").toArray.length := by
    intro h
    obtain ⟨h1, h2⟩ := readStatusMapFromPack_passes pack h
    rw [h1]
    exact statusLoop_length _ _ _ h2
  refine ⟨⟨?_, readStatusMapFromPack_rejects pack⟩, hpass⟩
  intro hempty
  by_contra h
  have := (hpass h).1
  rw [hempty] at this
  simp at this

/-- C20: the 19 names of the status column catalog that `createDeviceStatusRequestPack` emits
are pairwise distinct; for a pack with `t = "dat"`, the catalog as `cols` and any `dat` array
of 19 elements, `readStatusMapFromPack` returns a map with exactly 19 entries, the `k`-th
catalog name paired with `dat[k]` read as integer, so that every name maps to the value at its
own position. -/
theorem readStatusMapFromPack_catalog (id : QString) (pack : QJsonObject) (dat : QJsonArray)
    (ht : pack.value "t" = .string "dat")
    (hc : pack.value "cols" = .array (statusColumns.map QJsonValue.string))
    (hd : pack.value "dat" = .array dat) (hlen : dat.length = 19) :
    statusColumns.Nodup
    ∧ (QJsonDocument.fromJson (createDeviceStatusRequestPack id)).map
        (fun doc => doc.object.value "cols")
      = some (.array (statusColumns.map QJsonValue.string))
    ∧ (readStatusMapFromPack pack).length = 19
    ∧ readStatusMapFromPack pack = List.zip statusColumns (dat.map QJsonValue.toInt)
    ∧ ∀ k, k < 19 →
        DeviceParameterMap.find (readStatusMapFromPack pack) (statusColumns.getD k "")
          = some (dat.index k).toInt := by
  have hnd : statusColumns.Nodup := by decide
  have hmap : (statusColumns.map QJsonValue.string).map QJsonValue.toString = statusColumns :=
    rfl
  have h19 : (statusColumns.map QJsonValue.string).length = 19 := rfl
  have hsl : statusColumns.length = 19 := rfl
  have hres : readStatusMapFromPack pack
      = List.zip statusColumns (dat.map QJsonValue.toInt) := by
    rw [readStatusMapFromPack_accepts pack _ dat ht hc hd (by simp [statusColumns])
        (by rw [h19, hlen]),
      statusLoop_distinct _ dat (by rw [hmap]; exact hnd) (by rw [h19, hlen]) _
        (Nat.le_refl _), hmap, h19]
    apply List.take_of_length_le
    simp [List.length_zip, hsl, hlen]
  have hkeys : DeviceParameterMap.keys (List.zip statusColumns (dat.map QJsonValue.toInt))
      = statusColumns := by
    simp only [DeviceParameterMap.keys]
    rw [List.map_fst_zip]
    simp [hsl, hlen]
  refine ⟨hnd, ?_, ?_, hres, ?_⟩
  · rw [fromJson_createDeviceStatusRequestPack]; rfl
  · rw [hres]; simp [List.length_zip, hsl, hlen]
  · intro k hk
    have hzl : k < (List.zip statusColumns (dat.map QJsonValue.toInt)).length := by
      simp [List.length_zip, hsl, hlen]; exact hk
    have hf := find_getElem_of_nodup (List.zip statusColumns (dat.map QJsonValue.toInt))
      (by rw [hkeys]; exact hnd) k hzl
    have hk1 : k < statusColumns.length := by rw [hsl]; exact hk
    have hk2 : k < dat.length := by rw [hlen]; exact hk
    rw [hres]
    simp only [List.getElem_zip, List.getElem_map] at hf
    have e1 : statusColumns.getD k "" = statusColumns[k] := by
      simp [List.getD_eq_getElem?_getD, hk1]
    have e2 : (dat.index k).toInt = (dat[k]).toInt := by
      simp [QJsonArray.index, List.getD_eq_getElem?_getD, hk2]
    rw [e1, e2]
    exact hf

theorem readStatusMapFromPack_catalog_witness :
    readStatusMapFromPack
        [("cols", .array (statusColumns.map QJsonValue.string)),
         ("dat", .array ((List.range 19).map (fun k => QJsonValue.ofInt k))),
         ("t", .string "dat")]
      = List.zip statusColumns
          (((List.range 19).map (fun k => QJsonValue.ofInt k)).map QJsonValue.toInt) :=
  (readStatusMapFromPack_catalog "AA:BB:CC:DD:EE:FF"
    [("cols", .array (statusColumns.map QJsonValue.string)),
     ("dat", .array ((List.range 19).map (fun k => QJsonValue.ofInt k))),
     ("t", .string "dat")]
    ((List.range 19).map (fun k => QJsonValue.ofInt k)) rfl rfl rfl rfl).2.2.2.1

end ProtocolUtils

end GreeLib
